import Mathlib

/-!
# Lassie: candidate discovery client and streaming capture store

A shallow embedding of `pkg/indexerlookup/candidatefinder.go`, of the
streaming store exercised by
`pkg/internal/streamingstore/streamingstore_test.go` and of the request
validation of `server/http/ipfs.go`, together with the properties verified
about them.

Conventions of the embedding:

* a Go `[]byte` is a `List Nat` (`Bytes`); `bytes.Equal` is list equality;
* a Go `error` is `Option Error` (`none` is `nil`);
* a Go slice whose nil-ness is observable to callers is a `Slice`
  (`Slice.nil` is the nil slice, `Slice.mk xs` an allocated one);
* library calls whose code lives outside the repository (the HTTP client,
  the JSON and metadata codecs, `rand.Perm`, `http.StatusText`, ...) are
  fields of `Env` or of `options`, so every theorem holds for each of
  their possible behaviours.
-/

namespace Lassie

/-! ## Data model -/

/-- Go byte slices, compared with `bytes.Equal`. -/
abbrev Bytes := List Nat

/-- Go error values, identified by their message. -/
abbrev Error := String

/-- A Go slice with observable nil-ness. -/
inductive Slice (α : Type) where
  | nil : Slice α
  | mk (elems : List α) : Slice α
deriving DecidableEq, Repr

/-- The elements of a slice; the nil slice has none. -/
def Slice.toList {α : Type} : Slice α → List α
  | .nil => []
  | .mk xs => xs

/-- Go `len(s)`. -/
def Slice.len {α : Type} (s : Slice α) : Nat := s.toList.length

/-- Go `append(s, x)`: the result is always an allocated slice. -/
def Slice.append {α : Type} (s : Slice α) (x : α) : Slice α :=
  .mk (s.toList ++ [x])

/-- Go `s == nil`. -/
def Slice.isNil {α : Type} : Slice α → Bool
  | .nil => true
  | .mk _ => false

/-- A content identifier (`cid.Cid`): version, codec and multihash. -/
structure Cid where
  Version : Nat
  Codec : Nat
  Multihash : Bytes
deriving DecidableEq, Repr

/-- The zero value `cid.Undef`. -/
def Cid.Undef : Cid := ⟨0, 0, []⟩

/-- Go `c.Hash()`: the multihash of the identifier. -/
def Cid.Hash (c : Cid) : Bytes := c.Multihash

/-- A provider address (`peer.AddrInfo`). -/
structure AddrInfo where
  ID : String
  Addrs : List String
deriving DecidableEq, Repr

/-- Decoded provider metadata (`metadata.Metadata`): its protocol entries. -/
structure Metadata where
  Protocols : List Nat
deriving DecidableEq, Repr

/-- The zero value `metadata.Metadata{}`. -/
def Metadata.zero : Metadata := ⟨[]⟩

/-- One provider entry of an indexer answer (`model.ProviderResult`). -/
structure ProviderResult where
  ContextID : Bytes
  Metadata : Bytes
  Provider : AddrInfo
deriving DecidableEq, Repr

/-- The provider entries of one multihash (`model.MultihashResult`). -/
structure MultihashResult where
  Multihash : Bytes
  ProviderResults : List ProviderResult
deriving DecidableEq, Repr

/-- A batch answer (`model.FindResponse`). -/
structure FindResponse where
  MultihashResults : List MultihashResult
deriving DecidableEq, Repr

/-- A fetch target (`types.RetrievalCandidate`). -/
structure RetrievalCandidate where
  MinerPeer : AddrInfo
  RootCid : Cid
  Metadata : Metadata
deriving DecidableEq, Repr

/-- The zero value of `types.RetrievalCandidate`. -/
def RetrievalCandidate.zero : RetrievalCandidate :=
  ⟨⟨"", []⟩, Cid.Undef, Metadata.zero⟩

/-- One item of the incremental stream (`types.FindCandidatesResult`). -/
structure FindCandidatesResult where
  Candidate : RetrievalCandidate
  Err : Option Error
deriving DecidableEq, Repr

/-- What a caller-supplied `context.Context` shows to a worker: `poll n` is
`ctx.Err()` at the worker's `n`-th non-blocking look at `ctx.Done()`, and is
`none` while the context is not done. -/
structure Context where
  poll : Nat → Option Error

/-- A context that is never cancelled (`context.Background()`). -/
def Context.background : Context := ⟨fun _ => none⟩

/-- Go `url.URL`, by the parts `String()` assembles: `Location` is the
scheme, authority and path as `String()` renders them, `RawQuery` the query
without its `?`, `ForceQuery` whether a `?` is written although the query is
empty, and `Fragment` the fragment as `String()` renders it, without its
`#`. -/
structure URL where
  Location : String
  RawQuery : String
  ForceQuery : Bool
  Fragment : String
deriving DecidableEq, Repr

/-- Go `u.String()`. -/
def URL.String (u : URL) : String :=
  u.Location ++ (if u.ForceQuery = true ∨ u.RawQuery ≠ "" then "?" ++ u.RawQuery else "")
    ++ (if u.Fragment ≠ "" then "#" ++ u.Fragment else "")

/-- An outgoing `http.Request`, as far as the client sets it. -/
structure Request where
  Method : String
  URL : URL
  Header : List (String × String)
deriving DecidableEq, Repr

/-- Go `req.Header.Set(k, v)`: replaces whatever was stored under `k`. -/
def Request.setHeader (req : Request) (k v : String) : Request :=
  { req with Header := (req.Header.filter fun kv => kv.1 != k) ++ [(k, v)] }

/-- Go `req.Header.Get(k)` (`""` when absent). -/
def Request.getHeader (req : Request) (k : String) : String :=
  match req.Header.find? fun kv => kv.1 == k with
  | some kv => kv.2
  | none => ""

/-- A response body (`io.ReadCloser`), described by what its two readers
observe: `readAll` is the outcome of `io.ReadAll`, while `lines` are the
tokens of a `bufio.Scanner` over it and `scanErr` the scanner's `Err()` once
`Scan` has returned false. -/
structure ReadCloser where
  readAll : Except Error Bytes
  lines : List Bytes
  scanErr : Option Error

/-- An `http.Response`: its status code and body. -/
structure Response where
  StatusCode : Int
  Body : ReadCloser

/-- Go `http.StatusOK`. -/
def StatusOK : Int := 200

/-- Go `http.StatusNotFound`. -/
def StatusNotFound : Int := 404

/-- The library functions the client calls. -/
structure Env where
  /-- Go `rand.Perm(n)`: a pseudo-random permutation of `0 .. n-1`. -/
  randPerm : (n : Nat) → List (Fin n)
  /-- Go `model.UnmarshalFindResponse`. -/
  UnmarshalFindResponse : Bytes → Except Error FindResponse
  /-- Go `json.Unmarshal` into a `model.ProviderResult`. -/
  jsonUnmarshal : Bytes → Except Error ProviderResult
  /-- Go `metadata.Default.New().UnmarshalBinary`. -/
  UnmarshalBinary : Bytes → Except Error Metadata
  /-- Go `http.StatusText`. -/
  StatusText : Int → String
  /-- Go `mh.B58String()`. -/
  B58String : Bytes → String
  /-- Go `path.Join` of two elements. -/
  pathJoin : String → String → String
  /-- Go `http.NewRequestWithContext(ctx, method, url, nil)`. -/
  NewRequestWithContext : String → String → Except Error Request
  /-- Go `query.Add(k, v)` on `req.URL.Query()` followed by `Encode()`. -/
  queryAddEncode : String → String → String → String

/-- The configuration of the client (`options`). -/
structure options where
  httpEndpoint : String
  httpUserAgent : String
  ipfsDhtCascade : Bool
  asyncResultsChanBuffer : Nat
  /-- Go `idxf.httpClient.Do`. -/
  httpClientDo : Request → Except Error Response

/-- The client: `IndexerCandidateFinder` embeds its options. -/
abbrev IndexerCandidateFinder := options

/-! ## The candidate discovery client -/

/-- Go `findByMultihashEndpoint`. -/
def findByMultihashEndpoint (env : Env) (idxf : IndexerCandidateFinder) (mh : Bytes) : String :=
  idxf.httpEndpoint ++ env.pathJoin "/multihash" (env.B58String mh)

/-- Go `newFindHttpRequest`. -/
def newFindHttpRequest (env : Env) (idxf : IndexerCandidateFinder) (c : Cid) :
    Except Error Request :=
  let endpoint := findByMultihashEndpoint env idxf c.Hash
  match env.NewRequestWithContext "GET" endpoint with
  | .error err => .error err
  | .ok req =>
    let req := if idxf.httpUserAgent != "" then
        req.setHeader "User-Agent" idxf.httpUserAgent else req
    let req := if idxf.ipfsDhtCascade then
        { req with URL := { req.URL with
            RawQuery := env.queryAddEncode req.URL.RawQuery "cascade" "ipfs-dht" } }
      else req
    .ok req

/-- Go `sendJsonRequest`. -/
def sendJsonRequest (env : Env) (idxf : IndexerCandidateFinder) (req : Request) :
    Except Error FindResponse :=
  let req := req.setHeader "Accept" "application/json"
  match idxf.httpClientDo req with
  | .error err => .error err
  | .ok resp =>
    if resp.StatusCode = StatusOK then
      match resp.Body.readAll with
      | .error err => .error err
      | .ok b => env.UnmarshalFindResponse b
    else if resp.StatusCode = StatusNotFound then
      .ok ⟨[]⟩
    else
      .error ("batch find query failed: " ++ env.StatusText resp.StatusCode)

/-- Go `decodeMetadata`. -/
def decodeMetadata (env : Env) (pr : ProviderResult) : Except Error Metadata :=
  if pr.Metadata.length = 0 then
    .error "no metadata"
  else
    match env.UnmarshalBinary pr.Metadata with
    | .error err => .error err
    | .ok dtm => .ok dtm

/-- The inner loop of `FindCandidates` over the provider entries of one
multihash result. -/
def appendProviderResults (env : Env) (cid : Cid) (found : Slice RetrievalCandidate)
    (providerResults : List ProviderResult) : Slice RetrievalCandidate :=
  providerResults.foldl (fun found val =>
    match decodeMetadata env val with
    | .ok md => found.append { RootCid := cid, MinerPeer := val.Provider, Metadata := md }
    | .error _ => found) found

/-- The outer loop of `FindCandidates` over `indices`. -/
def collectMatches (env : Env) (cid : Cid) (results : List MultihashResult)
    (indices : List (Fin results.length)) (found : Slice RetrievalCandidate) :
    Slice RetrievalCandidate :=
  indices.foldl (fun found i =>
    let multihashResult := results.get i
    if ¬ (cid.Hash = multihashResult.Multihash) then found
    else appendProviderResults env cid found multihashResult.ProviderResults) found

/-- Go `FindCandidates`: the candidates and the error it returns. -/
def FindCandidates (env : Env) (idxf : IndexerCandidateFinder) (cid : Cid) :
    Slice RetrievalCandidate × Option Error :=
  match newFindHttpRequest env idxf cid with
  | .error err => (.nil, some err)
  | .ok req =>
    match sendJsonRequest env idxf req with
    | .error err => (.nil, some err)
    | .ok parsedResp =>
      let indices := env.randPerm parsedResp.MultihashResults.length
      (collectMatches env cid parsedResp.MultihashResults indices .nil, none)

/-- The body of the goroutine started by `decodeProviderResultStream`: the
items it sends on `rch`, in order, before `rch` is closed. `n` counts the
iterations of its loop, `lines` are the lines the scanner has yet to return
and `scanErr` is the scanner's error at the end of the lines. -/
def decodeWorker (env : Env) (ctx : Context) (c : Cid) (scanErr : Option Error) :
    Nat → List Bytes → List FindCandidatesResult
  | n, [] =>
    match ctx.poll n with
    | some err => [{ Candidate := RetrievalCandidate.zero, Err := some err }]
    | none =>
      match scanErr with
      | some err => [{ Candidate := RetrievalCandidate.zero, Err := some err }]
      | none => []
  | n, line :: rest =>
    match ctx.poll n with
    | some err => [{ Candidate := RetrievalCandidate.zero, Err := some err }]
    | none =>
      if line.length = 0 then decodeWorker env ctx c scanErr (n + 1) rest
      else
        match env.jsonUnmarshal line with
        | .error err => [{ Candidate := RetrievalCandidate.zero, Err := some err }]
        | .ok pr =>
          match decodeMetadata env pr with
          | .ok md =>
            { Candidate := { MinerPeer := pr.Provider, RootCid := c, Metadata := md },
              Err := none } :: decodeWorker env ctx c scanErr (n + 1) rest
          | .error _ => decodeWorker env ctx c scanErr (n + 1) rest

/-- A receive-only channel of stream items, as its consumer sees it: the
items it delivers, in order, before it is closed, and its buffer size. -/
structure Chan where
  items : List FindCandidatesResult
  buffer : Nat
deriving DecidableEq, Repr

/-- Go `decodeProviderResultStream`: the channel (`none` is the nil channel)
and the error it returns. -/
def decodeProviderResultStream (env : Env) (idxf : IndexerCandidateFinder) (ctx : Context)
    (c : Cid) (body : ReadCloser) : Option Chan × Option Error :=
  (some { items := decodeWorker env ctx c body.scanErr 0 body.lines,
          buffer := idxf.asyncResultsChanBuffer }, none)

/-- Go `FindCandidatesAsync`: the channel (`none` is the nil channel) and the
error it returns. -/
def FindCandidatesAsync (env : Env) (idxf : IndexerCandidateFinder) (ctx : Context) (c : Cid) :
    Option Chan × Option Error :=
  match newFindHttpRequest env idxf c with
  | .error err => (none, some err)
  | .ok req =>
    let req := req.setHeader "Accept" "application/x-ndjson"
    match idxf.httpClientDo req with
    | .error err => (none, some err)
    | .ok resp =>
      if resp.StatusCode = StatusOK then
        decodeProviderResultStream env idxf ctx c resp.Body
      else if resp.StatusCode = StatusNotFound then
        (none, none)
      else
        (none, some ("batch find query failed: " ++ env.StatusText resp.StatusCode))

/-! ## The streaming capture store

The implementation file of the store is not among the sources; only its
test is. The store is therefore modelled from the specification (section
4.2 and the archive format of section 6), and from what the test asserts
where the test is more precise. Keys are the `KeyString()` of identifiers and are
modelled by the identifier itself. The sink of the test, a `bytes.Buffer`,
never fails, and neither does the sink of the model. -/

/-- Modelled from the spec: the error conditions of the store, whose
implementation is missing. `notFound` is the NotFound condition (absence)
and `closed` the single Closed condition (use after `Close`). -/
inductive StoreError where
  | notFound (key : Cid)
  | closed
deriving DecidableEq, Repr

/-- Modelled from the spec: the capability check
`err.(interface{ NotFound() bool })` of the test: `some b` when the error has
a `NotFound()` method that reports `b`, `none` when it has none. -/
def StoreError.NotFound : StoreError → Option Bool
  | .notFound _ => some true
  | .closed => none

/-- Modelled from the spec: the text of an error (`err.Error()`). The text
of the Closed condition is the one the test expects; that of the NotFound
condition is fixed neither by the spec nor by the test, which have callers
branch on the capability instead. -/
def StoreError.Error : StoreError → String
  | .notFound _ => "not found"
  | .closed => "streaming store closed"

/-- A captured block: its key and its bytes. -/
structure CapturedBlock where
  Key : Cid
  Data : Bytes
deriving DecidableEq, Repr

/-- Modelled from the spec: one record of the archive format (section 6), a
header listing the declared roots and the format version, or a block record
of an identifier and its raw bytes. -/
inductive ArchiveRecord where
  | header (Roots : List Cid) (Version : Nat)
  | block (blk : CapturedBlock)
deriving DecidableEq, Repr

/-- The archive format version the store writes. -/
def archiveVersion : Nat := 1

/-- Modelled from the spec: the state of a streaming store, whose
implementation is missing. `blocks` is the captured-block index (newest
first), `queue` the blocks enqueued for the sink and not yet written (oldest
first), `sink` the records that have reached the sink, `sinkAcquired` whether
the sink factory has been invoked, and `errorCb` the errors delivered to the
error callback so far, in order. -/
structure StreamingStore where
  roots : List Cid
  closed : Bool
  blocks : List CapturedBlock
  queue : List CapturedBlock
  sink : List ArchiveRecord
  sinkAcquired : Bool
  errorCb : List StoreError
deriving DecidableEq, Repr

/-- Modelled from the spec: `NewStreamingStore`; the store starts Open, with
nothing captured and the sink not yet acquired. -/
def NewStreamingStore (roots : List Cid) : StreamingStore :=
  { roots := roots, closed := false, blocks := [], queue := [], sink := [],
    sinkAcquired := false, errorCb := [] }

/-- The block the index holds for a key, if any. -/
def StreamingStore.lookup (ss : StreamingStore) (key : Cid) : Option CapturedBlock :=
  ss.blocks.find? fun b => b.Key = key

/-- Delivery of an error to the error callback. -/
def StreamingStore.report (ss : StreamingStore) (err : StoreError) : StreamingStore :=
  { ss with errorCb := ss.errorCb ++ [err] }

/-- Modelled from the spec: `Put`, missing from the sources. On a closed
store it fails with the Closed condition, which also goes to the error
callback. On an open store the block becomes visible to reads at once and
is enqueued for the sink behind the blocks put before it. -/
def StreamingStore.Put (ss : StreamingStore) (key : Cid) (data : Bytes) :
    Option StoreError × StreamingStore :=
  if ss.closed then (some .closed, ss.report .closed)
  else (none, { ss with blocks := ⟨key, data⟩ :: ss.blocks, queue := ss.queue ++ [⟨key, data⟩] })

/-- Modelled from the spec: `Get`, missing from the sources. It returns the
bytes (`none` is the nil slice) and the error. Absence is the NotFound
condition, which the test does not allow to reach the error callback. -/
def StreamingStore.Get (ss : StreamingStore) (key : Cid) :
    (Option Bytes × Option StoreError) × StreamingStore :=
  if ss.closed then ((none, some .closed), ss.report .closed)
  else
    match ss.lookup key with
    | some b => ((some b.Data, none), ss)
    | none => ((none, some (.notFound key)), ss)

/-- Modelled from the spec: `GetStream`, missing from the sources. It returns
the complete contents of the stream (`none` is the nil stream) and the
error. -/
def StreamingStore.GetStream (ss : StreamingStore) (key : Cid) :
    (Option Bytes × Option StoreError) × StreamingStore :=
  if ss.closed then ((none, some .closed), ss.report .closed)
  else
    match ss.lookup key with
    | some b => ((some b.Data, none), ss)
    | none => ((none, some (.notFound key)), ss)

/-- Modelled from the spec: `Has`, missing from the sources. For an absent
key the test requires `false` and no error (`require.NoError`,
`require.False`), and the model follows the test. -/
def StreamingStore.Has (ss : StreamingStore) (key : Cid) :
    (Bool × Option StoreError) × StreamingStore :=
  if ss.closed then ((false, some .closed), ss.report .closed)
  else (((ss.lookup key).isSome, none), ss)

/-- Modelled from the spec: one step of the internal writer, which takes the
oldest enqueued block to the sink. The sink is acquired, and the header of
declared roots and version written, when the first block needs writing. -/
def StreamingStore.writeNext (ss : StreamingStore) : StreamingStore :=
  match ss.queue with
  | [] => ss
  | b :: rest =>
    { ss with
      sink := ss.sink ++ (if ss.sinkAcquired then [] else [.header ss.roots archiveVersion])
                ++ [.block b],
      sinkAcquired := true,
      queue := rest }

/-- The writer run for `n` steps. -/
def StreamingStore.drain (ss : StreamingStore) : Nat → StreamingStore
  | 0 => ss
  | n + 1 => (ss.writeNext).drain n

/-- Modelled from the spec: `Close`, missing from the sources. The first
call waits until the writer has taken every enqueued block to the sink, then
closes the store and releases the staged blocks. A later call changes
nothing and reports nothing (the test closes every store a second time, with
a callback that rejects any error it does not expect). -/
def StreamingStore.Close (ss : StreamingStore) : Option StoreError × StreamingStore :=
  if ss.closed then (none, ss)
  else (none, { ss.drain ss.queue.length with closed := true, blocks := [] })

/-- A call on the store. -/
inductive Call where
  | Put (key : Cid) (data : Bytes)
  | Get (key : Cid)
  | Has (key : Cid)
  | GetStream (key : Cid)
  | Close
deriving DecidableEq, Repr

/-- What a call returns. -/
inductive Outcome where
  | Put (err : Option StoreError)
  | Get (data : Option Bytes) (err : Option StoreError)
  | Has (found : Bool) (err : Option StoreError)
  | GetStream (stream : Option Bytes) (err : Option StoreError)
  | Close (err : Option StoreError)
deriving DecidableEq, Repr

/-- One call on the store: what it returns and the store afterwards. -/
def StreamingStore.call (ss : StreamingStore) : Call → Outcome × StreamingStore
  | .Put key data => ((ss.Put key data).1 |> .Put, (ss.Put key data).2)
  | .Get key => (.Get (ss.Get key).1.1 (ss.Get key).1.2, (ss.Get key).2)
  | .Has key => (.Has (ss.Has key).1.1 (ss.Has key).1.2, (ss.Has key).2)
  | .GetStream key => (.GetStream (ss.GetStream key).1.1 (ss.GetStream key).1.2,
      (ss.GetStream key).2)
  | .Close => (.Close ss.Close.1, ss.Close.2)

/-- What happens to a store: a call by a user, or a step of the internal
writer, which runs concurrently with the callers. -/
inductive Event where
  | call (c : Call)
  | writer
deriving DecidableEq, Repr

/-- The store after an event. -/
def StreamingStore.step (ss : StreamingStore) : Event → StreamingStore
  | .call c => (ss.call c).2
  | .writer => ss.writeNext

/-- The store after a sequence of events. -/
def StreamingStore.exec (ss : StreamingStore) (events : List Event) : StreamingStore :=
  events.foldl StreamingStore.step ss

/-- The outcomes of a sequence of calls, and the store after them. -/
def StreamingStore.calls (ss : StreamingStore) : List Call → List Outcome × StreamingStore
  | [] => ([], ss)
  | c :: rest => ((ss.call c).1 :: ((ss.call c).2.calls rest).1, ((ss.call c).2.calls rest).2)

/-- Modelled from the spec: a sequential reader of the archive format (the
`carv2.NewBlockReader` of the test), positioned after the header. -/
structure BlockReader where
  Version : Nat
  Roots : List Cid
  remaining : List ArchiveRecord
deriving DecidableEq, Repr

/-- Modelled from the spec: opening an archive reads its header, which must
come first and declare the version 1. -/
def NewBlockReader (sink : List ArchiveRecord) : Except Error BlockReader :=
  match sink with
  | .header roots version :: rest =>
    if version = archiveVersion then .ok ⟨version, roots, rest⟩
    else .error "invalid car version"
  | _ => .error "invalid car header"

/-- Modelled from the spec: `Next` reads the next block record; the end of
the archive is the error `EOF`. -/
def BlockReader.Next (rd : BlockReader) : Except Error (CapturedBlock × BlockReader) :=
  match rd.remaining with
  | [] => .error "EOF"
  | .block b :: rest => .ok (b, { rd with remaining := rest })
  | .header _ _ :: _ => .error "invalid section"

/-- All the block records of a list of records, which fails on a header. -/
def readBlocks : List ArchiveRecord → Option (List CapturedBlock)
  | [] => some []
  | .block b :: rest => (readBlocks rest).map (b :: ·)
  | .header _ _ :: _ => none

/-- Decoding a whole archive by sequential scan: the version, the roots and
the blocks in order, or `none` when the records are not an archive. -/
def decodeArchive (sink : List ArchiveRecord) : Option (Nat × List Cid × List CapturedBlock) :=
  match NewBlockReader sink with
  | .error _ => none
  | .ok rd => (readBlocks rd.remaining).map fun blocks => (rd.Version, rd.Roots, blocks)

/-! ## The gateway handler

The request validation of `ipfsHandler` in `server/http/ipfs.go`, up to the
parsing of the cid path parameter; what the handler does with a parsed cid
(the retrieval and the sending of the archive) is not modelled. -/

/-- Go `url.Values`: the keys of a parsed query, each with its values. -/
structure Values where
  entries : List (String × List String)
deriving DecidableEq, Repr

/-- Go `v.Has(key)`. -/
def Values.Has (v : Values) (key : String) : Bool :=
  v.entries.any fun kv => kv.1 == key

/-- Go `v.Get(key)`: the first value stored under `key`, `""` when there is
none. -/
def Values.Get (v : Values) (key : String) : String :=
  match v.entries.find? fun kv => kv.1 == key with
  | some (_, value :: _) => value
  | _ => ""

/-- An incoming `http.Request`, as far as the handler reads it: `Path` is
`req.URL.Path`, `Accept` is `req.Header.Get("Accept")` and `Query` is
`req.URL.Query()`. -/
structure IncomingRequest where
  Method : String
  Path : String
  Accept : String
  Query : Values
deriving DecidableEq, Repr

/-- Go `strings.Split(s, sep)` for a separator of one character. -/
def stringsSplit (s : String) (sep : Char) : List String :=
  (s.data.splitOn sep).map String.mk

/-- The loop of Go `filepath.Ext`, which walks the path from its end: `rev`
is what is left of the path, reversed, and `suffix` the characters already
passed. -/
def filepathExtLoop : List Char → List Char → List Char
  | [], _ => []
  | c :: rev, suffix =>
    if c = '/' then []
    else if c = '.' then '.' :: suffix
    else filepathExtLoop rev (c :: suffix)

/-- Go `filepath.Ext(path)`: the suffix beginning at the final dot of the
final element of the path, `""` if there is no dot. -/
def filepathExt (path : String) : String :=
  String.mk (filepathExtLoop path.data.reverse [])

/-- Go `http.StatusMethodNotAllowed`. -/
def StatusMethodNotAllowed : Int := 405

/-- Go `http.StatusBadRequest`. -/
def StatusBadRequest : Int := 400

/-- Go `http.StatusInternalServerError`. -/
def StatusInternalServerError : Int := 500

/-- What the validation of a request ends in: a response with a status, the
response headers added and the message printed (`""` when only the status is
printed), or the retrieval of the parsed root cid. -/
inductive HandlerResult where
  | respond (status : Int) (header : List (String × String)) (message : String)
  | fetch (rootCid : Cid)
deriving DecidableEq, Repr

/-- The test of one element of the Accept header in `ipfsHandler`. -/
def acceptTypeMatches (acceptType : String) : Bool :=
  let typeParts := stringsSplit acceptType ';'
  typeParts.getD 0 "" == "*/*" || typeParts.getD 0 "" == "application/*"
    || typeParts.getD 0 "" == "application/vnd.ipld.car"

/-- The last step of the validation in `ipfsHandler`: the cid path parameter
is parsed with `cid.Parse`, given as `cidParse`. -/
def parseCidParam (cidParse : String → Except Error Cid) (urlPath : List String) :
    HandlerResult :=
  let cidStr := urlPath.getD 1 ""
  match cidParse cidStr with
  | .error _ =>
    .respond StatusInternalServerError [] "Failed to parse cid path parameter"
  | .ok rootCid => .fetch rootCid

/-- Go `ipfsHandler`, from its first line to the parsing of the cid path
parameter. -/
def ipfsHandler (cidParse : String → Except Error Cid) (req : IncomingRequest) :
    HandlerResult :=
  let urlPath := (stringsSplit req.Path '/').drop 1
  if req.Method ≠ "GET" then
    .respond StatusMethodNotAllowed [("Allow", "GET")] ""
  else if urlPath.length < 2 then
    .respond StatusNotFound [] ""
  else
    let hasAccept := req.Accept != ""
    let acceptTypes := stringsSplit req.Accept ','
    let validAccept := acceptTypes.any acceptTypeMatches
    if hasAccept && !validAccept then
      .respond StatusBadRequest [] "No acceptable content type"
    else
      let hasFormat := req.Query.Has "format"
      if hasFormat && req.Query.Get "format" != "car" then
        .respond StatusBadRequest []
          ("Requested non-supported format " ++ req.Query.Get "format")
      else if !validAccept && !hasFormat then
        .respond StatusBadRequest []
          "Neither a valid accept header or format parameter were provided"
      else if req.Query.Has "filename" then
        let filename := req.Query.Get "filename"
        let ext := filepathExt filename
        if ext = "" then
          .respond StatusBadRequest [] "Filename missing extension"
        else if ext ≠ ".car" then
          .respond StatusBadRequest [] ("Filename uses non-supported extension " ++ ext)
        else parseCidParam cidParse urlPath
      else parseCidParam cidParse urlPath

/-! ## Library functions behind the lookup request

Models of the library functions that decide the URL of a lookup request:
the base58 text of a multihash and `path.Join`. -/

/-- The alphabet of base58 (the Bitcoin one, which `B58String` uses). -/
def b58Alphabet : List Char :=
  "123456789ABCDEFGHJKLMNPQRSTUVWXYZabcdefghijkmnopqrstuvwxyz".data

/-- The number a byte sequence denotes, most significant byte first. -/
def bytesValue (b : Bytes) : Nat :=
  b.foldl (fun acc x => acc * 256 + x) 0

/-- The base-58 digits of `n`, most significant first, in front of `acc`;
`fuel` bounds the number of digits. -/
def b58Digits : Nat → Nat → List Nat → List Nat
  | 0, _, acc => acc
  | fuel + 1, n, acc => if n = 0 then acc else b58Digits fuel (n / 58) (n % 58 :: acc)

/-- Go `mh.B58String()`: the base58 text of the bytes, which is one `1` for
each leading zero byte followed by the base-58 digits of the number the
bytes denote (two digits per byte are always enough). -/
def B58String (mh : Bytes) : String :=
  String.mk (List.replicate (mh.takeWhile (· = 0)).length '1'
    ++ (b58Digits (2 * mh.length) (bytesValue mh) []).map fun d => b58Alphabet.getD d '1')

/-- One step of the lexical processing of Go `path.Clean`, on the stack of
the elements kept so far (the last one first): an empty element and `.` are
dropped, `..` removes the element before it (it is dropped at the root, and
kept at the start of a path that is not rooted), any other element is
kept. -/
def cleanStep (rooted : Bool) (stack : List (List Char)) (elem : List Char) :
    List (List Char) :=
  if elem = [] ∨ elem = ['.'] then stack
  else if elem = ['.', '.'] then
    match stack with
    | [] => if rooted then [] else [elem]
    | top :: below => if top = ['.', '.'] then elem :: stack else below
  else elem :: stack

/-- Go `path.Clean(path)`: the shortest path equivalent to `path` by purely
lexical processing; `.` when the result is empty. -/
def pathClean (path : String) : String :=
  let rooted := path.data.head? = some '/'
  let stack := (path.data.splitOn '/').foldl (cleanStep rooted) []
  let out := (if rooted then ['/'] else []) ++ ['/'].intercalate stack.reverse
  if out = [] then "." else String.mk out

/-- Go `path.Join(elem...)`: the non-empty elements are joined with `/` and
the result is cleaned; `""` when every element is empty. -/
def pathJoinElems (elem : List String) : String :=
  if (elem.map String.length).sum = 0 then ""
  else
    pathClean (elem.foldl (fun buf e =>
      if buf ≠ "" ∨ e ≠ "" then (if buf ≠ "" then buf ++ "/" else buf) ++ e else buf) "")

/-- Go `path.Join(a, b)`. -/
def pathJoin (a b : String) : String := pathJoinElems [a, b]

/-- What the models of `net/url` and `net/http` below leave to the library:
the error of `url.Parse` on a text (`none` when it parses), how `String()`
renders the scheme, authority and path it parsed from a text, how it
renders a fragment, and the quoting of `%q`. -/
structure UrlLibrary where
  parseError : String → Option Error
  renderLocation : String → String
  renderFragment : String → String
  quote : String → String

/-- Go `strings.Cut(s, sep)` for a separator of one element: the text before
the first separator and the text after it (all of `s` and nothing when there
is no separator). -/
def cut {α : Type} [DecidableEq α] (sep : α) (s : List α) : List α × List α :=
  (s.takeWhile (· ≠ sep), (s.dropWhile (· ≠ sep)).drop 1)

/-- Go `url.Parse(rawURL)` when it succeeds: the fragment is cut off at the
first `#`, then the query at the first `?`; a single `?` at the very end
forces an empty query. -/
def urlParse (lib : UrlLibrary) (rawURL : String) : URL :=
  let u := (cut '#' rawURL.data).1
  let frag := (cut '#' rawURL.data).2
  let force := decide (u.getLast? = some '?' ∧ u.count '?' = 1)
  let rest := if force then u.dropLast else (cut '?' u).1
  let query := if force then [] else (cut '?' u).2
  { Location := lib.renderLocation (String.mk rest),
    RawQuery := String.mk query,
    ForceQuery := force,
    Fragment := if frag = [] then "" else lib.renderFragment (String.mk frag) }

/-- Go `httpguts.IsTokenRune`: the characters allowed in a method. -/
def isTokenRune (c : Char) : Bool :=
  let n := c.toNat
  decide ((48 ≤ n ∧ n ≤ 57) ∨ (65 ≤ n ∧ n ≤ 90) ∨ (94 ≤ n ∧ n ≤ 122)
    ∨ n ∈ [33, 35, 36, 37, 38, 39, 42, 43, 45, 46, 124, 126])

/-- Go `validMethod` of `net/http`. -/
def validMethod (method : String) : Bool :=
  decide (0 < method.length) && method.data.all isTokenRune

/-- Go `http.NewRequestWithContext(ctx, method, url, nil)` for a context that
is not nil: an empty method stands for GET, an invalid method and a URL
that does not parse are errors, and the request has the method, the parsed
URL and no header. -/
def NewRequestWithContext (lib : UrlLibrary) (method url : String) : Except Error Request :=
  let method := if method = "" then "GET" else method
  if validMethod method = false then
    .error ("net/http: invalid method " ++ lib.quote method)
  else
    match lib.parseError url with
    | some err => .error err
    | none => .ok { Method := method, URL := urlParse lib url, Header := [] }

/-- The UTF-8 bytes of a character. -/
def utf8Bytes (c : Char) : Bytes :=
  let n := c.toNat
  if n < 128 then [n]
  else if n < 2048 then [192 + n / 64, 128 + n % 64]
  else if n < 65536 then [224 + n / 4096, 128 + n / 64 % 64, 128 + n % 64]
  else [240 + n / 262144, 128 + n / 4096 % 64, 128 + n / 64 % 64, 128 + n % 64]

/-- The bytes of a Go string. -/
def stringBytes (s : String) : Bytes := s.data.flatMap utf8Bytes

/-- The upper-case hexadecimal digit of a number below 16. -/
def upperHex (n : Nat) : Char := "0123456789ABCDEF".data.getD n '0'

/-- The value of a hexadecimal digit, if the byte is one (Go `ishex` and
`unhex`). -/
def unhex (c : Nat) : Option Nat :=
  if 48 ≤ c ∧ c ≤ 57 then some (c - 48)
  else if 97 ≤ c ∧ c ≤ 102 then some (c - 97 + 10)
  else if 65 ≤ c ∧ c ≤ 70 then some (c - 65 + 10)
  else none

/-- Go `shouldEscape(c, encodeQueryComponent)`: every byte but the letters,
the digits and `-`, `_`, `.`, `~` is escaped. -/
def shouldEscape (c : Nat) : Bool :=
  !decide ((48 ≤ c ∧ c ≤ 57) ∨ (65 ≤ c ∧ c ≤ 90) ∨ (97 ≤ c ∧ c ≤ 122)
    ∨ c = 45 ∨ c = 95 ∨ c = 46 ∨ c = 126)

/-- Go `url.QueryEscape`: a blank becomes `+`, a byte to escape becomes `%`
and its two hexadecimal digits. -/
def queryEscape (s : Bytes) : List Char :=
  s.flatMap fun c =>
    if c = 32 then ['+']
    else if shouldEscape c then ['%', upperHex (c / 16), upperHex (c % 16)]
    else [Char.ofNat c]

/-- Go `url.QueryUnescape`: `%` and two hexadecimal digits become a byte and
`+` a blank; `none` is the error for a `%` not followed by two hexadecimal
digits. -/
def queryUnescape : Bytes → Option Bytes
  | [] => some []
  | c :: rest =>
    if c = 37 then
      match rest with
      | hi :: lo :: rest2 =>
        match unhex hi, unhex lo with
        | some h, some l => (queryUnescape rest2).map ((h * 16 + l) :: ·)
        | _, _ => none
      | _ => none
    else if c = 43 then (queryUnescape rest).map (32 :: ·)
    else (queryUnescape rest).map (c :: ·)

/-- The order of Go strings: byte by byte. -/
def bytesLt : Bytes → Bytes → Bool
  | [], [] => false
  | [], _ :: _ => true
  | _ :: _, [] => false
  | a :: as, b :: bs => if a < b then true else if b < a then false else bytesLt as bs

/-- Go `v.Add(key, value)` on the values of a query, which are kept here in
the order of their keys, the order in which `Encode` writes them. -/
def valuesAdd : List (Bytes × List Bytes) → Bytes → Bytes → List (Bytes × List Bytes)
  | [], key, value => [(key, [value])]
  | (k, vs) :: rest, key, value =>
    if key = k then (k, vs ++ [value]) :: rest
    else if bytesLt key k then (key, [value]) :: (k, vs) :: rest
    else (k, vs) :: valuesAdd rest key value

/-- Go `url.ParseQuery`, whose error `u.Query()` drops: the pairs are
separated by `&`; an empty pair, a pair with a `;` and a pair that does not
unescape are left out; key and value are separated by the first `=`. -/
def parseQuery (query : Bytes) : List (Bytes × List Bytes) :=
  (query.splitOn 38).foldl (fun m pair =>
    if 59 ∈ pair ∨ pair = [] then m
    else
      match queryUnescape (cut 61 pair).1, queryUnescape (cut 61 pair).2 with
      | some key, some value => valuesAdd m key value
      | _, _ => m) []

/-- Go `v.Encode()`: `key=value` for every value of every key, in the order
of the keys, escaped and joined by `&`. -/
def valuesEncode (v : List (Bytes × List Bytes)) : String :=
  String.mk (['&'].intercalate (v.flatMap fun kv =>
    kv.2.map fun value => queryEscape kv.1 ++ '=' :: queryEscape value))

/-- Go `query := u.Query(); query.Add(key, value); query.Encode()` on a URL
with the raw query `raw`. -/
def queryAddEncode (raw key value : String) : String :=
  valuesEncode (valuesAdd (parseQuery (stringBytes raw)) (stringBytes key) (stringBytes value))

/-! ## Vocabulary of the properties

Definitions that the statements below use to describe what the code
returns. -/

/-- The candidate `FindCandidates` builds from one provider entry, when its
metadata decodes. -/
def candidateOf (env : Env) (cid : Cid) (val : ProviderResult) : Option RetrievalCandidate :=
  match decodeMetadata env val with
  | .ok md => some { RootCid := cid, MinerPeer := val.Provider, Metadata := md }
  | .error _ => none

/-- The candidates of one multihash result: none when its multihash differs
from the requested one, else those of its decodable entries, in response
order. -/
def candidatesOfResult (env : Env) (cid : Cid) (mr : MultihashResult) : List RetrievalCandidate :=
  if cid.Hash = mr.Multihash then mr.ProviderResults.filterMap (candidateOf env cid) else []

/-- Whether a response line is well-formed JSON for a provider result. -/
def lineWellFormed (env : Env) (line : Bytes) : Bool :=
  match env.jsonUnmarshal line with
  | .ok _ => true
  | .error _ => false

/-- Normal end of data for a worker that is at iteration `n` with `lines`
left to scan: the context is not seen done at any of the iterations that
remain (one per line and one for the end of the data), every non-empty line
is well-formed, and the scanner ends without error. -/
def normalEndOfData (env : Env) (ctx : Context) (scanErr : Option Error) (n : Nat)
    (lines : List Bytes) : Prop :=
  (∀ i, i ≤ lines.length → ctx.poll (n + i) = none) ∧
  (∀ line ∈ lines, line ≠ [] → lineWellFormed env line = true) ∧
  scanErr = none

/-- A stream that ends with its only error item: error-free items followed
by one last item that carries an error and no candidate. -/
def endsWithOnlyError (items : List FindCandidatesResult) : Prop :=
  ∃ init last, items = init ++ [last] ∧ last.Err ≠ none ∧
    last.Candidate = RetrievalCandidate.zero ∧ ∀ x ∈ init, x.Err = none

/-- What each of `Put`, `Get`, `Has` and `GetStream` returns when it fails
with the Closed condition: the error and a nil or false value. -/
def closedOutcome : Call → Outcome
  | .Put _ _ => .Put (some .closed)
  | .Get _ => .Get none (some .closed)
  | .Has _ => .Has false (some .closed)
  | .GetStream _ => .GetStream none (some .closed)
  | .Close => .Close none

/-- The records of a version-1 archive with the given roots and blocks, as
the writer produces them: nothing at all while no block has been written,
else the header followed by the block records. -/
def archiveRecords (roots : List Cid) : List CapturedBlock → List ArchiveRecord
  | [] => []
  | b :: rest => .header roots archiveVersion :: (b :: rest).map .block

/-- Whether an event is a call of `Close`. -/
def Event.isClose : Event → Bool
  | .call .Close => true
  | _ => false

/-- Whether an event is a `Put` of the given key. -/
def Event.isPutOf (key : Cid) : Event → Bool
  | .call (.Put k _) => decide (k = key)
  | _ => false

/-- The blocks put by a sequence of events, in order. -/
def putsOf : List Event → List CapturedBlock
  | [] => []
  | .call (.Put key data) :: rest => ⟨key, data⟩ :: putsOf rest
  | _ :: rest => putsOf rest

/-- What the writer maintains while the store is open, for the blocks `puts`
put so far: some prefix `written` of them has reached the sink, as the
records of an archive with the declared roots, and the rest is the queue. -/
def StreamingStore.archiveInv (roots : List Cid) (puts : List CapturedBlock)
    (ss : StreamingStore) : Prop :=
  ss.closed = false ∧ ss.roots = roots ∧
  ∃ written, puts = written ++ ss.queue ∧ ss.sink = archiveRecords roots written ∧
    ss.sinkAcquired = !written.isEmpty

/-- The item a response line stands for in the incremental stream: none for
an empty line, for a malformed line and for a line whose metadata is empty or
undecodable, else the error-free item with the requested cid, the line's
provider and its decoded metadata. -/
def itemOfLine (env : Env) (c : Cid) (line : Bytes) : Option FindCandidatesResult :=
  if line = [] then none
  else
    match env.jsonUnmarshal line with
    | .error _ => none
    | .ok pr =>
      match decodeMetadata env pr with
      | .error _ => none
      | .ok md =>
        some { Candidate := { MinerPeer := pr.Provider, RootCid := c, Metadata := md },
               Err := none }

/-- The segments of a request path after its leading `/`. -/
def pathSegments (req : IncomingRequest) : List String :=
  (stringsSplit req.Path '/').drop 1

/-- Whether an element of the Accept header is a valid one: its text before
its first `;`, untrimmed, is exactly one of the three accepted types. -/
def validAcceptElement (element : String) : Bool :=
  String.mk (element.data.takeWhile (· ≠ ';'))
    ∈ ["*/*", "application/*", "application/vnd.ipld.car"]

/-- Whether some comma-separated element of the Accept header is valid. -/
def hasValidAcceptElement (req : IncomingRequest) : Bool :=
  (stringsSplit req.Accept ',').any validAcceptElement

/-- Condition (a): the Accept header is empty or has a valid element. -/
def acceptCondition (req : IncomingRequest) : Bool :=
  decide (req.Accept = "") || hasValidAcceptElement req

/-- Condition (b): the format parameter is absent or equals `car`. -/
def formatCondition (req : IncomingRequest) : Bool :=
  !req.Query.Has "format" || decide (req.Query.Get "format" = "car")

/-- Condition (c): a valid Accept element or a format parameter is present. -/
def presenceCondition (req : IncomingRequest) : Bool :=
  hasValidAcceptElement req || req.Query.Has "format"

/-- Condition (d): the filename parameter is absent or its extension is
exactly `.car`. -/
def filenameCondition (req : IncomingRequest) : Bool :=
  !req.Query.Has "filename" || decide (filepathExt (req.Query.Get "filename") = ".car")

/-- The four conditions under which a GET request with a cid segment reaches
the parsing of the cid. -/
def passesValidation (req : IncomingRequest) : Bool :=
  acceptCondition req && formatCondition req && presenceCondition req && filenameCondition req

/-- A sample requested identifier. -/
def sampleCid : Cid := ⟨1, 85, [18, 2, 7, 7]⟩

/-- A second sample identifier. -/
def otherCid : Cid := ⟨1, 85, [18, 2, 8, 8]⟩

/-- A third sample identifier, never put in the samples. -/
def unsetCid : Cid := ⟨1, 85, [18, 2, 5, 5]⟩

/-- Two sample providers. -/
def providerA : AddrInfo := ⟨"peerA", ["/ip4/10.0.0.1/tcp/4001"]⟩

/-- The second sample provider. -/
def providerB : AddrInfo := ⟨"peerB", []⟩

/-- A sample batch answer: a foreign multihash, then the requested one with
a decodable entry, an entry without metadata, an undecodable entry and a
second decodable entry. -/
def sampleResponse : FindResponse :=
  ⟨[⟨[18, 2, 9, 9], [⟨[1], [144, 18], providerB⟩]⟩,
    ⟨[18, 2, 7, 7], [⟨[1], [144, 18], providerA⟩, ⟨[2], [], providerB⟩,
                     ⟨[3], [0, 1], providerA⟩, ⟨[4], [128, 18], providerB⟩]⟩]⟩

/-- A sample batch answer with a single multihash result holding two
decodable entries. -/
def singleResultResponse : FindResponse :=
  ⟨[⟨[18, 2, 7, 7], [⟨[1], [144, 18], providerA⟩, ⟨[4], [128, 18], providerB⟩]⟩]⟩

/-- Sample library behaviours: the permutation reverses the indices, a
batch body beginning with byte 1 holds `singleResultResponse` and any other
holds `sampleResponse`, a line decodes when it begins with byte 123, and
metadata decodes unless it begins with byte 0. -/
def sampleEnv : Env where
  randPerm := fun n => (List.finRange n).reverse
  UnmarshalFindResponse := fun b =>
    if b.head? = some 1 then .ok singleResultResponse else .ok sampleResponse
  jsonUnmarshal := fun line =>
    if line.head? = some 123 then .ok ⟨[], line.tail, providerA⟩ else .error "invalid character"
  UnmarshalBinary := fun b => if b.head? = some 0 then .error "unknown protocol" else .ok ⟨b⟩
  StatusText := fun code =>
    if code = 500 then "Internal Server Error" else if code = 404 then "Not Found" else ""
  B58String := fun _ => "Qm"
  pathJoin := fun a b => a ++ "/" ++ b
  NewRequestWithContext := fun method url => .ok ⟨method, ⟨url, "", false, ""⟩, []⟩
  queryAddEncode := fun _ k v => k ++ "=" ++ v

/-- A sample client whose indexer answers every request with the given
status and body. -/
def sampleFinder (status : Int) (body : ReadCloser) : IndexerCandidateFinder where
  httpEndpoint := "https://cid.contact"
  httpUserAgent := ""
  ipfsDhtCascade := false
  asyncResultsChanBuffer := 1
  httpClientDo := fun _ => .ok ⟨status, body⟩

/-- A sample empty body. -/
def emptyBody : ReadCloser := ⟨.ok [], [], none⟩

/-- The request `newFindHttpRequest` builds in the sample configuration. -/
def sampleRequest : Request :=
  ⟨"GET", ⟨"https://cid.contact/multihash/Qm", "", false, ""⟩, []⟩

/-- A sample incremental body: a decodable line, an empty line, a line with
undecodable metadata, a second decodable line, a malformed line and one
more decodable line. -/
def sampleStreamBody : ReadCloser :=
  ⟨.ok [], [[123, 144, 18], [], [123, 0, 1], [123, 7], [55], [123, 9]], none⟩

/-- A context that is seen cancelled from the worker's third look on. -/
def cancelledAtThirdPoll : Context :=
  ⟨fun n => if 2 ≤ n then some "context canceled" else none⟩

/-- A sample history of an open store: a block is put under `otherCid`, the
writer takes it to the sink, it is read back, and a second block is put
under `otherCid`. -/
def sampleEvents : List Event :=
  [.call (.Put otherCid [1, 2]), .writer, .call (.Get otherCid), .call (.Has unsetCid),
   .call (.Put otherCid [3]), .call (.GetStream sampleCid)]

/-- The calls the test makes after `Close`: four on a key never put, three
on a key that was put. -/
def callsAfterClose : List Call :=
  [.Put unsetCid [1, 2], .Has unsetCid, .Get unsetCid, .GetStream unsetCid,
   .Has sampleCid, .Get sampleCid, .GetStream sampleCid]

/-- The calls of the test `TestStreamingStoreWritesCARv1` in its case "read
before, during and after close", with `sampleCid` and `otherCid` for its two
blocks and `unsetCid` for the random keys. -/
def testCalls : List Call :=
  [.Has unsetCid, .Get unsetCid, .GetStream unsetCid,
   .Put sampleCid [1, 2],
   .Get sampleCid, .GetStream sampleCid, .Has unsetCid, .Get unsetCid, .GetStream unsetCid,
   .Put otherCid [3],
   .Get otherCid, .GetStream otherCid,
   .Close] ++ callsAfterClose

/-- A sample incremental body of well-formed lines: a decodable line, an
empty line, a line with undecodable metadata, a line without metadata and a
second decodable line. -/
def wellFormedStreamBody : ReadCloser :=
  ⟨.ok [], [[123, 144, 18], [], [123, 0, 1], [123], [123, 7]], none⟩

/-- A sample `cid.Parse`: it accepts one string only. -/
def sampleCidParse : String → Except Error Cid :=
  fun str => if str = "bafkqaaa" then .ok sampleCid else .error "invalid cid"

/-- A sample incoming request, given by its method, path, Accept header and
parsed query. -/
def sampleIncoming (method path accept : String) (query : List (String × List String)) :
    IncomingRequest :=
  ⟨method, path, accept, ⟨query⟩⟩

/-- The multihash of a sample sha2-256 identifier. -/
def sha256Multihash : Bytes :=
  [18, 32, 44, 242, 77, 186, 95, 176, 163, 14, 38, 232, 59, 42, 197, 185, 226, 158, 27, 22,
   30, 92, 31, 167, 66, 94, 115, 4, 51, 98, 147, 139, 152, 36]

/-! ## Verified properties of the candidate discovery client -/

theorem Slice.toList_append {α : Type} (s : Slice α) (x : α) :
    (s.append x).toList = s.toList ++ [x] := rfl

theorem appendProviderResults_toList (env : Env) (cid : Cid)
    (prs : List ProviderResult) (found : Slice RetrievalCandidate) :
    (appendProviderResults env cid found prs).toList
      = found.toList ++ prs.filterMap (candidateOf env cid) := by
  induction prs generalizing found with
  | nil => simp [appendProviderResults]
  | cons val rest ih =>
    have step : appendProviderResults env cid found (val :: rest)
        = appendProviderResults env cid
            (match decodeMetadata env val with
             | .ok md => found.append { RootCid := cid, MinerPeer := val.Provider, Metadata := md }
             | .error _ => found) rest := rfl
    rw [step, ih]
    cases hd : decodeMetadata env val with
    | error e => simp [candidateOf, hd]
    | ok md => simp [candidateOf, hd, Slice.toList_append]

theorem collectMatches_toList (env : Env) (cid : Cid) (results : List MultihashResult)
    (indices : List (Fin results.length)) (found : Slice RetrievalCandidate) :
    (collectMatches env cid results indices found).toList
      = found.toList ++ indices.flatMap (fun i => candidatesOfResult env cid (results.get i)) := by
  induction indices generalizing found with
  | nil => simp [collectMatches]
  | cons i rest ih =>
    have step : collectMatches env cid results (i :: rest) found
        = collectMatches env cid results rest
            (if ¬ (cid.Hash = (results.get i).Multihash) then found
             else appendProviderResults env cid found (results.get i).ProviderResults) := rfl
    rw [step, ih, List.flatMap_cons]
    by_cases h : cid.Hash = (results.get i).Multihash
    · rw [if_neg (not_not.mpr h), appendProviderResults_toList, candidatesOfResult, if_pos h,
        List.append_assoc]
    · rw [if_pos h, candidatesOfResult, if_neg h, List.nil_append]

/-- C1: for every requested cid and every successfully parsed batch answer,
whatever the permutation drawn, `FindCandidates` returns no error and every
candidate it returns has `RootCid` equal to the requested cid and was built
from a provider entry of a multihash result whose multihash equals
`cid.Hash()`, an entry whose metadata is non-empty and was decoded
successfully into the candidate's metadata; so no entry of a non-matching
multihash result and no entry with empty or undecodable metadata yields a
candidate. -/
theorem FindCandidates_matching_and_decodable (env : Env) (idxf : IndexerCandidateFinder)
    (cid : Cid) (req : Request) (parsedResp : FindResponse)
    (hreq : newFindHttpRequest env idxf cid = .ok req)
    (hresp : sendJsonRequest env idxf req = .ok parsedResp) :
    (FindCandidates env idxf cid).2 = none ∧
    ∀ cand ∈ (FindCandidates env idxf cid).1.toList,
      cand.RootCid = cid ∧
      ∃ mr ∈ parsedResp.MultihashResults, mr.Multihash = cid.Hash ∧
        ∃ val ∈ mr.ProviderResults,
          val.Metadata ≠ [] ∧
          env.UnmarshalBinary val.Metadata = .ok cand.Metadata ∧
          decodeMetadata env val = .ok cand.Metadata ∧
          cand.MinerPeer = val.Provider := by
  have hrun : FindCandidates env idxf cid
      = (collectMatches env cid parsedResp.MultihashResults
          (env.randPerm parsedResp.MultihashResults.length) .nil, none) := by
    simp only [FindCandidates, hreq, hresp]
  rw [hrun]
  refine ⟨rfl, ?_⟩
  intro cand hcand
  change cand ∈ (collectMatches env cid parsedResp.MultihashResults
      (env.randPerm parsedResp.MultihashResults.length) .nil).toList at hcand
  rw [collectMatches_toList] at hcand
  simp only [Slice.toList, List.nil_append, List.mem_flatMap] at hcand
  obtain ⟨i, _, hi⟩ := hcand
  unfold candidatesOfResult at hi
  split at hi
  · rename_i hhash
    obtain ⟨val, hval, hdec⟩ := List.mem_filterMap.mp hi
    unfold candidateOf at hdec
    split at hdec
    · rename_i md hmd
      have hc : cand = { RootCid := cid, MinerPeer := val.Provider, Metadata := md } :=
        (Option.some.inj hdec).symm
      subst hc
      refine ⟨rfl, parsedResp.MultihashResults.get i, List.get_mem _ _ _, hhash.symm,
        val, hval, ?_, ?_, hmd, rfl⟩
      · intro hempty
        simp [decodeMetadata, hempty] at hmd
      · unfold decodeMetadata at hmd
        split at hmd
        · cases hmd
        · split at hmd
          · cases hmd
          · rename_i dtm hdtm
            cases hmd
            exact hdtm
    · cases hdec
  · cases hi

/-- The sample batch answer has six provider entries; only the two decodable
entries of the requested multihash come back. -/
theorem FindCandidates_matching_and_decodable_witness :
    (FindCandidates sampleEnv (sampleFinder 200 ⟨.ok [0], [], none⟩) sampleCid).1.toList
      = [⟨providerA, sampleCid, ⟨[144, 18]⟩⟩, ⟨providerB, sampleCid, ⟨[128, 18]⟩⟩] ∧
    ∀ cand ∈ (FindCandidates sampleEnv (sampleFinder 200 ⟨.ok [0], [], none⟩) sampleCid).1.toList,
      cand.RootCid = sampleCid ∧
      ∃ mr ∈ sampleResponse.MultihashResults, mr.Multihash = sampleCid.Hash ∧
        ∃ val ∈ mr.ProviderResults,
          val.Metadata ≠ [] ∧
          sampleEnv.UnmarshalBinary val.Metadata = .ok cand.Metadata ∧
          decodeMetadata sampleEnv val = .ok cand.Metadata ∧
          cand.MinerPeer = val.Provider :=
  ⟨by decide, (FindCandidates_matching_and_decodable sampleEnv
    (sampleFinder 200 ⟨.ok [0], [], none⟩) sampleCid sampleRequest sampleResponse
    rfl rfl).2⟩

/-- C2 (as stated, refuted): when the indexer answers the batch lookup with
status 404, the candidate set `FindCandidates` returns is the nil slice, so
it is not "empty and non-nil". -/
theorem FindCandidates_not_found_is_nil_slice :
    (sampleFinder 404 emptyBody).httpClientDo (sampleRequest.setHeader "Accept" "application/json")
      = .ok ⟨404, emptyBody⟩ ∧
    ¬ ((FindCandidates sampleEnv (sampleFinder 404 emptyBody) sampleCid).2 = none ∧
       (FindCandidates sampleEnv (sampleFinder 404 emptyBody) sampleCid).1.len = 0 ∧
       (FindCandidates sampleEnv (sampleFinder 404 emptyBody) sampleCid).1.isNil = false) := by
  refine ⟨rfl, ?_⟩
  intro h
  exact absurd h.2.2 (by decide)

/-- C2 (amended): for every cid, when the indexer answers the batch lookup
with status 404, `FindCandidates` returns no error and an empty candidate
set, which is the nil slice. -/
theorem FindCandidates_not_found (env : Env) (idxf : IndexerCandidateFinder) (cid : Cid)
    (req : Request) (resp : Response)
    (hreq : newFindHttpRequest env idxf cid = .ok req)
    (hdo : idxf.httpClientDo (req.setHeader "Accept" "application/json") = .ok resp)
    (hstatus : resp.StatusCode = 404) :
    FindCandidates env idxf cid = (Slice.nil, none) ∧
    (FindCandidates env idxf cid).1.len = 0 := by
  have hne : ¬ resp.StatusCode = StatusOK := by rw [hstatus]; decide
  have heq : resp.StatusCode = StatusNotFound := hstatus
  have hsend : sendJsonRequest env idxf req = .ok ⟨[]⟩ := by
    simp only [sendJsonRequest, hdo, if_neg hne, if_pos heq]
  have hrun : FindCandidates env idxf cid = (Slice.nil, none) := by
    simp only [FindCandidates, hreq, hsend]
    have hperm : ∀ l : List (Fin ([] : List MultihashResult).length), l = [] := by
      intro l
      cases l with
      | nil => rfl
      | cons i _ => exact i.elim0
    rw [hperm (env.randPerm _)]
    rfl
  rw [hrun]
  exact ⟨rfl, rfl⟩

/-- The sample client, answered 404, returns the nil slice and no error. -/
theorem FindCandidates_not_found_witness :
    FindCandidates sampleEnv (sampleFinder 404 emptyBody) sampleCid = (Slice.nil, none) ∧
    (FindCandidates sampleEnv (sampleFinder 404 emptyBody) sampleCid).1.len = 0 :=
  FindCandidates_not_found sampleEnv (sampleFinder 404 emptyBody) sampleCid sampleRequest
    ⟨404, emptyBody⟩ rfl rfl rfl

/-- C8 (as stated, refuted): a batch answer with a single multihash result
holding two decodable provider entries A and B leaves two provider entries
after the multihash filter, and with the reversing permutation the
candidates come back as A, B; yet no permutation choice at all makes
`FindCandidates` return them in the ordering B, A. -/
theorem FindCandidates_no_choice_reorders_entries :
    (FindCandidates sampleEnv (sampleFinder 200 ⟨.ok [1], [], none⟩) sampleCid).1.toList
      = [⟨providerA, sampleCid, ⟨[144, 18]⟩⟩, ⟨providerB, sampleCid, ⟨[128, 18]⟩⟩] ∧
    ¬ ∃ randPerm : (n : Nat) → List (Fin n),
      (FindCandidates { sampleEnv with randPerm := randPerm }
        (sampleFinder 200 ⟨.ok [1], [], none⟩) sampleCid).1.toList
        = [⟨providerB, sampleCid, ⟨[128, 18]⟩⟩, ⟨providerA, sampleCid, ⟨[144, 18]⟩⟩] := by
  refine ⟨by decide, ?_⟩
  rintro ⟨randPerm, h⟩
  have hrun : (FindCandidates { sampleEnv with randPerm := randPerm }
      (sampleFinder 200 ⟨.ok [1], [], none⟩) sampleCid).1
      = collectMatches { sampleEnv with randPerm := randPerm } sampleCid
          singleResultResponse.MultihashResults (randPerm 1) .nil := rfl
  rw [hrun, collectMatches_toList] at h
  generalize randPerm 1 = l at h
  cases l with
  | nil => simp [Slice.toList] at h
  | cons i rest =>
    have hi : i = ⟨0, by decide⟩ := Subsingleton.elim _ _
    subst hi
    rw [List.flatMap_cons] at h
    have hfirst : candidatesOfResult { sampleEnv with randPerm := randPerm } sampleCid
        (singleResultResponse.MultihashResults.get ⟨0, by decide⟩)
        = [⟨providerA, sampleCid, ⟨[144, 18]⟩⟩, ⟨providerB, sampleCid, ⟨[128, 18]⟩⟩] := rfl
    rw [hfirst] at h
    simp [Slice.toList, providerA, providerB] at h

/-- C8 (amended): in `FindCandidates` it is the multihash results, not the
provider entries, that are visited in the order of the permutation drawn per
call: for every answer and every permutation choice, the candidates returned
are the concatenation, in the permutation's order over the multihash
results, of each matching result's decodable provider entries, and the
entries of one multihash result always keep their response order. -/
theorem FindCandidates_order_by_multihash_result (env : Env) (idxf : IndexerCandidateFinder)
    (cid : Cid) (req : Request) (parsedResp : FindResponse)
    (hreq : newFindHttpRequest env idxf cid = .ok req)
    (hresp : sendJsonRequest env idxf req = .ok parsedResp) :
    (FindCandidates env idxf cid).1.toList
      = (env.randPerm parsedResp.MultihashResults.length).flatMap (fun i =>
          if cid.Hash = (parsedResp.MultihashResults.get i).Multihash then
            (parsedResp.MultihashResults.get i).ProviderResults.filterMap (candidateOf env cid)
          else []) := by
  have hrun : FindCandidates env idxf cid
      = (collectMatches env cid parsedResp.MultihashResults
          (env.randPerm parsedResp.MultihashResults.length) .nil, none) := by
    simp only [FindCandidates, hreq, hresp]
  rw [hrun]
  change (collectMatches env cid parsedResp.MultihashResults
      (env.randPerm parsedResp.MultihashResults.length) .nil).toList = _
  rw [collectMatches_toList]
  rfl

/-- On the sample answer the reversing permutation visits the requested
multihash result first and returns its decodable entries in response order. -/
theorem FindCandidates_order_by_multihash_result_witness :
    (FindCandidates sampleEnv (sampleFinder 200 ⟨.ok [0], [], none⟩) sampleCid).1.toList
      = (sampleEnv.randPerm sampleResponse.MultihashResults.length).flatMap (fun i =>
          if sampleCid.Hash = (sampleResponse.MultihashResults.get i).Multihash then
            (sampleResponse.MultihashResults.get i).ProviderResults.filterMap
              (candidateOf sampleEnv sampleCid)
          else []) :=
  FindCandidates_order_by_multihash_result sampleEnv (sampleFinder 200 ⟨.ok [0], [], none⟩)
    sampleCid sampleRequest sampleResponse rfl rfl

/-- C9: for every indexer response status other than 200 and 404, both
`FindCandidates` and `FindCandidatesAsync` return no candidates (the nil
slice) and no stream (the nil channel) together with a non-nil error whose
message is "batch find query failed: " followed by the status text of that
status code. -/
theorem find_other_status_is_protocol_error (env : Env) (idxf : IndexerCandidateFinder)
    (ctx : Context) (cid : Cid) (req : Request) (respJson respStream : Response)
    (hreq : newFindHttpRequest env idxf cid = .ok req)
    (hdoJson : idxf.httpClientDo (req.setHeader "Accept" "application/json") = .ok respJson)
    (hdoStream : idxf.httpClientDo (req.setHeader "Accept" "application/x-ndjson")
      = .ok respStream)
    (hJson200 : respJson.StatusCode ≠ 200) (hJson404 : respJson.StatusCode ≠ 404)
    (hStream200 : respStream.StatusCode ≠ 200) (hStream404 : respStream.StatusCode ≠ 404) :
    FindCandidates env idxf cid
      = (Slice.nil, some ("batch find query failed: " ++ env.StatusText respJson.StatusCode)) ∧
    FindCandidatesAsync env idxf ctx cid
      = (none, some ("batch find query failed: " ++ env.StatusText respStream.StatusCode)) := by
  have hJ1 : ¬ respJson.StatusCode = StatusOK := hJson200
  have hJ2 : ¬ respJson.StatusCode = StatusNotFound := hJson404
  have hS1 : ¬ respStream.StatusCode = StatusOK := hStream200
  have hS2 : ¬ respStream.StatusCode = StatusNotFound := hStream404
  have hsend : sendJsonRequest env idxf req
      = .error ("batch find query failed: " ++ env.StatusText respJson.StatusCode) := by
    simp only [sendJsonRequest, hdoJson, if_neg hJ1, if_neg hJ2]
  constructor
  · simp only [FindCandidates, hreq, hsend]
  · simp only [FindCandidatesAsync, hreq, hdoStream, if_neg hS1, if_neg hS2]

/-- The sample client, answered 500, fails both lookups with the status text
of 500. -/
theorem find_other_status_is_protocol_error_witness :
    FindCandidates sampleEnv (sampleFinder 500 emptyBody) sampleCid
      = (Slice.nil, some "batch find query failed: Internal Server Error") ∧
    FindCandidatesAsync sampleEnv (sampleFinder 500 emptyBody) Context.background sampleCid
      = (none, some "batch find query failed: Internal Server Error") :=
  find_other_status_is_protocol_error sampleEnv (sampleFinder 500 emptyBody) Context.background
    sampleCid sampleRequest ⟨500, emptyBody⟩ ⟨500, emptyBody⟩ rfl rfl rfl
    (by decide) (by decide) (by decide) (by decide)

/-- C10: for every cid, when the indexer answers the incremental lookup with
status 404, `FindCandidatesAsync` returns no error and the nil channel: not
a channel at all, hence neither an empty stream nor one carrying an error
item. -/
theorem FindCandidatesAsync_not_found (env : Env) (idxf : IndexerCandidateFinder)
    (ctx : Context) (cid : Cid) (req : Request) (resp : Response)
    (hreq : newFindHttpRequest env idxf cid = .ok req)
    (hdo : idxf.httpClientDo (req.setHeader "Accept" "application/x-ndjson") = .ok resp)
    (hstatus : resp.StatusCode = 404) :
    FindCandidatesAsync env idxf ctx cid = (none, none) := by
  have hne : ¬ resp.StatusCode = StatusOK := by rw [hstatus]; decide
  have heq : resp.StatusCode = StatusNotFound := hstatus
  simp only [FindCandidatesAsync, hreq, hdo, if_neg hne, if_pos heq]

/-- The sample client, answered 404, returns the nil channel and no error. -/
theorem FindCandidatesAsync_not_found_witness :
    FindCandidatesAsync sampleEnv (sampleFinder 404 emptyBody) Context.background sampleCid
      = (none, none) :=
  FindCandidatesAsync_not_found sampleEnv (sampleFinder 404 emptyBody) Context.background
    sampleCid sampleRequest ⟨404, emptyBody⟩ rfl rfl rfl

theorem normalEndOfData_cons (env : Env) (ctx : Context) (scanErr : Option Error) (n : Nat)
    (line : Bytes) (rest : List Bytes) (hpoll : ctx.poll n = none)
    (hline : line ≠ [] → lineWellFormed env line = true) :
    normalEndOfData env ctx scanErr n (line :: rest)
      ↔ normalEndOfData env ctx scanErr (n + 1) rest := by
  unfold normalEndOfData
  constructor
  · rintro ⟨h1, h2, h3⟩
    refine ⟨fun i hi => ?_, fun l hl => h2 l (List.mem_cons_of_mem _ hl), h3⟩
    have := h1 (i + 1) (by simpa using hi)
    rwa [show n + (i + 1) = n + 1 + i by omega] at this
  · rintro ⟨h1, h2, h3⟩
    refine ⟨fun i hi => ?_, fun l hl => ?_, h3⟩
    · cases i with
      | zero => simpa using hpoll
      | succ j =>
        have := h1 j (by simpa using hi)
        rwa [show n + 1 + j = n + (j + 1) by omega] at this
    · rcases List.mem_cons.mp hl with rfl | hl
      · exact hline
      · exact h2 l hl

theorem endsWithOnlyError_singleton (err : Error) :
    endsWithOnlyError [{ Candidate := RetrievalCandidate.zero, Err := some err }] :=
  ⟨[], _, rfl, by simp, rfl, by simp⟩

theorem endsWithOnlyError_cons (x : FindCandidatesResult) (items : List FindCandidatesResult)
    (hx : x.Err = none) (h : endsWithOnlyError items) : endsWithOnlyError (x :: items) := by
  obtain ⟨init, last, hitems, hlast, hcand, hinit⟩ := h
  refine ⟨x :: init, last, by simp [hitems], hlast, hcand, ?_⟩
  intro y hy
  rcases List.mem_cons.mp hy with rfl | hy
  · exact hx
  · exact hinit y hy

theorem decodeWorker_shape (env : Env) (ctx : Context) (c : Cid) (scanErr : Option Error)
    (lines : List Bytes) (n : Nat) :
    (normalEndOfData env ctx scanErr n lines →
      ∀ x ∈ decodeWorker env ctx c scanErr n lines, x.Err = none) ∧
    (¬ normalEndOfData env ctx scanErr n lines →
      endsWithOnlyError (decodeWorker env ctx c scanErr n lines)) := by
  induction lines generalizing n with
  | nil =>
    cases hpoll : ctx.poll n with
    | some err =>
      have hnot : ¬ normalEndOfData env ctx scanErr n [] := by
        rintro ⟨h1, _, _⟩
        have := h1 0 (Nat.le_refl _)
        simp [hpoll] at this
      simp only [decodeWorker, hpoll]
      exact ⟨fun h => absurd h hnot, fun _ => endsWithOnlyError_singleton err⟩
    | none =>
      cases hscan : scanErr with
      | some err =>
        have hnot : ¬ normalEndOfData env ctx (some err) n [] := by
          rintro ⟨_, _, h3⟩
          cases h3
        simp only [decodeWorker, hpoll]
        exact ⟨fun h => absurd h hnot, fun _ => endsWithOnlyError_singleton err⟩
      | none =>
        have hyes : normalEndOfData env ctx none n [] := by
          refine ⟨fun i hi => ?_, fun l hl => (by cases hl), rfl⟩
          have hi0 : i = 0 := by simpa using hi
          subst hi0
          simpa using hpoll
        simp only [decodeWorker, hpoll]
        exact ⟨fun _ x hx => (by cases hx), fun h => absurd hyes h⟩
  | cons line rest ih =>
    cases hpoll : ctx.poll n with
    | some err =>
      have hnot : ¬ normalEndOfData env ctx scanErr n (line :: rest) := by
        rintro ⟨h1, _, _⟩
        have := h1 0 (Nat.zero_le _)
        simp [hpoll] at this
      simp only [decodeWorker, hpoll]
      exact ⟨fun h => absurd h hnot, fun _ => endsWithOnlyError_singleton err⟩
    | none =>
      by_cases hempty : line.length = 0
      · have hline : line ≠ [] → lineWellFormed env line = true := by
          intro hne
          exact absurd (List.length_eq_zero.mp hempty) hne
        rw [normalEndOfData_cons env ctx scanErr n line rest hpoll hline]
        simp only [decodeWorker, hpoll, if_pos hempty]
        exact ih (n + 1)
      · cases hjson : env.jsonUnmarshal line with
        | error err =>
          have hnot : ¬ normalEndOfData env ctx scanErr n (line :: rest) := by
            rintro ⟨_, h2, _⟩
            have := h2 line (List.mem_cons_self _ _)
              (fun h => hempty (by rw [h]; rfl))
            simp [lineWellFormed, hjson] at this
          simp only [decodeWorker, hpoll, if_neg hempty, hjson]
          exact ⟨fun h => absurd h hnot, fun _ => endsWithOnlyError_singleton err⟩
        | ok pr =>
          have hline : line ≠ [] → lineWellFormed env line = true := by
            intro _
            simp [lineWellFormed, hjson]
          rw [normalEndOfData_cons env ctx scanErr n line rest hpoll hline]
          cases hmd : decodeMetadata env pr with
          | error err =>
            simp only [decodeWorker, hpoll, if_neg hempty, hjson, hmd]
            exact ih (n + 1)
          | ok md =>
            simp only [decodeWorker, hpoll, if_neg hempty, hjson, hmd]
            refine ⟨fun h x hx => ?_, fun h => endsWithOnlyError_cons _ _ rfl ((ih (n + 1)).2 h)⟩
            rcases List.mem_cons.mp hx with rfl | hx
            · rfl
            · exact (ih (n + 1)).1 h x hx

theorem error_index_is_last (items init : List FindCandidatesResult)
    (last : FindCandidatesResult) (hitems : items = init ++ [last])
    (hinit : ∀ x ∈ init, x.Err = none) (i : Nat) (hi : i < items.length)
    (herr : (items.get ⟨i, hi⟩).Err ≠ none) : i + 1 = items.length := by
  subst hitems
  by_cases hlt : i < init.length
  · have hmem : (init ++ [last]).get ⟨i, hi⟩ ∈ init := by
      rw [List.get_eq_getElem, List.getElem_append_left hlt]
      exact List.getElem_mem _
    exact absurd (hinit _ hmem) herr
  · simp only [List.length_append, List.length_singleton] at hi ⊢
    omega

/-- C7: for every sequence of response lines, every scanner outcome and
every point at which the context is seen cancelled,
`decodeProviderResultStream` returns a channel and no error, and of the
items the channel delivers before it is closed only the last can carry a
non-empty `Err` (so at most one does). On normal end of data no item carries
an error; in every other case (a malformed line, a scanner error or a
cancellation seen by the worker) the items are error-free items followed by
exactly one terminal error item, after which the channel is closed. -/
theorem decodeProviderResultStream_terminal_error (env : Env) (idxf : IndexerCandidateFinder)
    (ctx : Context) (c : Cid) (body : ReadCloser) :
    ∃ ch : Chan, decodeProviderResultStream env idxf ctx c body = (some ch, none) ∧
      (∀ (i : Nat) (hi : i < ch.items.length),
        (ch.items.get ⟨i, hi⟩).Err ≠ none → i + 1 = ch.items.length) ∧
      (normalEndOfData env ctx body.scanErr 0 body.lines → ∀ x ∈ ch.items, x.Err = none) ∧
      (¬ normalEndOfData env ctx body.scanErr 0 body.lines → endsWithOnlyError ch.items) := by
  have hshape := decodeWorker_shape env ctx c body.scanErr body.lines 0
  refine ⟨{ items := decodeWorker env ctx c body.scanErr 0 body.lines,
            buffer := idxf.asyncResultsChanBuffer }, rfl, ?_, hshape.1, hshape.2⟩
  intro i hi herr
  by_cases hnormal : normalEndOfData env ctx body.scanErr 0 body.lines
  · exact absurd (hshape.1 hnormal _ (List.get_mem _ _ _)) herr
  · obtain ⟨init, last, hitems, _, _, hinit⟩ := hshape.2 hnormal
    exact error_index_is_last _ init last hitems hinit i hi herr

/-- On the sample body the malformed fifth line ends the stream: two
candidates, then one error item, and the sixth line is never delivered; when
the context is seen cancelled at the third look, one candidate is followed
by the cancellation item. -/
theorem decodeProviderResultStream_terminal_error_witness :
    (decodeProviderResultStream sampleEnv (sampleFinder 200 sampleStreamBody) Context.background
      sampleCid sampleStreamBody).1.map Chan.items
      = some [⟨⟨providerA, sampleCid, ⟨[144, 18]⟩⟩, none⟩, ⟨⟨providerA, sampleCid, ⟨[7]⟩⟩, none⟩,
              ⟨RetrievalCandidate.zero, some "invalid character"⟩] ∧
    (decodeProviderResultStream sampleEnv (sampleFinder 200 sampleStreamBody) cancelledAtThirdPoll
      sampleCid sampleStreamBody).1.map Chan.items
      = some [⟨⟨providerA, sampleCid, ⟨[144, 18]⟩⟩, none⟩,
              ⟨RetrievalCandidate.zero, some "context canceled"⟩] ∧
    ∃ ch : Chan, decodeProviderResultStream sampleEnv (sampleFinder 200 sampleStreamBody)
        Context.background sampleCid sampleStreamBody = (some ch, none) ∧
      (∀ (i : Nat) (hi : i < ch.items.length),
        (ch.items.get ⟨i, hi⟩).Err ≠ none → i + 1 = ch.items.length) ∧
      (normalEndOfData sampleEnv Context.background sampleStreamBody.scanErr 0
        sampleStreamBody.lines → ∀ x ∈ ch.items, x.Err = none) ∧
      (¬ normalEndOfData sampleEnv Context.background sampleStreamBody.scanErr 0
        sampleStreamBody.lines → endsWithOnlyError ch.items) :=
  ⟨by decide, by decide,
    decodeProviderResultStream_terminal_error sampleEnv (sampleFinder 200 sampleStreamBody)
      Context.background sampleCid sampleStreamBody⟩

/-! ## Verified properties of the streaming capture store -/

theorem StreamingStore.writeNext_closed (ss : StreamingStore) :
    ss.writeNext.closed = ss.closed := by
  unfold StreamingStore.writeNext
  split <;> rfl

theorem StreamingStore.writeNext_blocks (ss : StreamingStore) :
    ss.writeNext.blocks = ss.blocks := by
  unfold StreamingStore.writeNext
  split <;> rfl

theorem StreamingStore.Get_open (ss : StreamingStore) (key : Cid) (h : ss.closed = false) :
    (ss.Get key).2 = ss := by
  unfold StreamingStore.Get
  rw [if_neg (by simp [h])]
  split <;> rfl

theorem StreamingStore.GetStream_open (ss : StreamingStore) (key : Cid)
    (h : ss.closed = false) : (ss.GetStream key).2 = ss := by
  unfold StreamingStore.GetStream
  rw [if_neg (by simp [h])]
  split <;> rfl

theorem StreamingStore.Has_open (ss : StreamingStore) (key : Cid) (h : ss.closed = false) :
    (ss.Has key).2 = ss := by
  unfold StreamingStore.Has
  rw [if_neg (by simp [h])]

theorem StreamingStore.Put_open (ss : StreamingStore) (key : Cid) (data : Bytes)
    (h : ss.closed = false) :
    ss.Put key data = (none, { ss with blocks := ⟨key, data⟩ :: ss.blocks,
                                       queue := ss.queue ++ [⟨key, data⟩] }) := by
  unfold StreamingStore.Put
  rw [if_neg (by simp [h])]

/-- An event other than `Close` leaves an open store open, and unless it is
a `Put` of `key` it leaves what the index holds for `key` unchanged. -/
theorem StreamingStore.step_keeps (ss : StreamingStore) (e : Event) (key : Cid)
    (hopen : ss.closed = false) (hclose : e.isClose = false) (hput : e.isPutOf key = false) :
    (ss.step e).closed = false ∧ (ss.step e).lookup key = ss.lookup key := by
  cases e with
  | writer =>
    refine ⟨by rw [StreamingStore.step, StreamingStore.writeNext_closed, hopen], ?_⟩
    simp only [StreamingStore.step, StreamingStore.lookup, StreamingStore.writeNext_blocks]
  | call c =>
    cases c with
    | Close => cases hclose
    | Get k =>
      simp only [StreamingStore.step, StreamingStore.call, StreamingStore.Get_open ss k hopen]
      exact ⟨hopen, trivial⟩
    | GetStream k =>
      simp only [StreamingStore.step, StreamingStore.call,
        StreamingStore.GetStream_open ss k hopen]
      exact ⟨hopen, trivial⟩
    | Has k =>
      simp only [StreamingStore.step, StreamingStore.call, StreamingStore.Has_open ss k hopen]
      exact ⟨hopen, trivial⟩
    | Put k data =>
      have hk : k ≠ key := by simpa [Event.isPutOf] using hput
      simp only [StreamingStore.step, StreamingStore.call, StreamingStore.Put_open ss k data hopen]
      refine ⟨hopen, ?_⟩
      simp [StreamingStore.lookup, List.find?_cons, hk]

theorem StreamingStore.exec_keeps (events : List Event) (ss : StreamingStore) (key : Cid)
    (hopen : ss.closed = false)
    (hev : ∀ e ∈ events, e.isClose = false ∧ e.isPutOf key = false) :
    (ss.exec events).closed = false ∧ (ss.exec events).lookup key = ss.lookup key := by
  induction events generalizing ss with
  | nil => exact ⟨hopen, rfl⟩
  | cons e rest ih =>
    have he := hev e (List.mem_cons_self _ _)
    have hstep := StreamingStore.step_keeps ss e key hopen he.1 he.2
    have hrest := ih (ss.step e) hstep.1 (fun e' he' => hev e' (List.mem_cons_of_mem _ he'))
    exact ⟨hrest.1, hrest.2.trans hstep.2⟩

/-- C3: for every open store, every key and every byte sequence, `Put`
returns without error, and from then on, whatever steps the writer takes
(so whether or not the block has reached the sink) and whatever other keys
are put or read while the store stays open, `Get` of the key returns exactly
those bytes with no error and `GetStream` returns a stream with exactly
those contents. -/
theorem StreamingStore.Put_then_Get (ss : StreamingStore) (key : Cid) (data : Bytes)
    (events : List Event) (hopen : ss.closed = false)
    (hev : ∀ e ∈ events, e.isClose = false ∧ e.isPutOf key = false) :
    (ss.Put key data).1 = none ∧
    (((ss.Put key data).2.exec events).Get key).1 = (some data, none) ∧
    (((ss.Put key data).2.exec events).GetStream key).1 = (some data, none) := by
  rw [StreamingStore.Put_open ss key data hopen]
  have hkeep := StreamingStore.exec_keeps events
    { ss with blocks := ⟨key, data⟩ :: ss.blocks, queue := ss.queue ++ [⟨key, data⟩] } key
    hopen hev
  have hlook : StreamingStore.lookup
      { ss with blocks := ⟨key, data⟩ :: ss.blocks, queue := ss.queue ++ [⟨key, data⟩] } key
      = some ⟨key, data⟩ := by
    simp [StreamingStore.lookup, List.find?_cons]
  rw [hlook] at hkeep
  refine ⟨rfl, ?_, ?_⟩
  · simp only [StreamingStore.Get, hkeep.1, hkeep.2]
    rfl
  · simp only [StreamingStore.GetStream, hkeep.1, hkeep.2]
    rfl

/-- A block put under `sampleCid` into a store with the sample history is
read back unchanged after the sample events have happened once more. -/
theorem StreamingStore.Put_then_Get_witness :
    (((NewStreamingStore [sampleCid]).exec sampleEvents).Put sampleCid [9, 9]).1 = none ∧
    (((((NewStreamingStore [sampleCid]).exec sampleEvents).Put sampleCid [9, 9]).2.exec
      sampleEvents).Get sampleCid).1 = (some [9, 9], none) ∧
    (((((NewStreamingStore [sampleCid]).exec sampleEvents).Put sampleCid [9, 9]).2.exec
      sampleEvents).GetStream sampleCid).1 = (some [9, 9], none) :=
  StreamingStore.Put_then_Get ((NewStreamingStore [sampleCid]).exec sampleEvents) sampleCid
    [9, 9] sampleEvents (by decide) (by decide)

/-- C4 (as stated, refuted): on a store in which nothing has been put, `Has`
of a key returns `false` and no error at all, so it does not return an error
whose `NotFound()` reports true. -/
theorem StreamingStore.Has_unset_returns_no_error :
    ((NewStreamingStore [sampleCid]).Has unsetCid).1 = (false, none) ∧
    ¬ ∃ err, ((NewStreamingStore [sampleCid]).Has unsetCid).1.2 = some err ∧
        err.NotFound = some true := by
  refine ⟨by decide, ?_⟩
  rintro ⟨err, herr, _⟩
  have hnone : ((NewStreamingStore [sampleCid]).Has unsetCid).1.2 = none := by decide
  rw [hnone] at herr
  cases herr

/-- C4 (amended): for every open store and every key that has never been
put, before any `Put` and after any number of puts of other keys, `Get` and
`GetStream` return a nil value and the NotFound condition, an error whose
`NotFound()` capability reports true, while `Has` returns `false` and no
error; none of the three reaches the error callback. -/
theorem StreamingStore.unset_key_reads (roots : List Cid) (events : List Event) (key : Cid)
    (hev : ∀ e ∈ events, e.isClose = false ∧ e.isPutOf key = false) :
    ((NewStreamingStore roots).exec events).Get key
      = ((none, some (.notFound key)), (NewStreamingStore roots).exec events) ∧
    ((NewStreamingStore roots).exec events).GetStream key
      = ((none, some (.notFound key)), (NewStreamingStore roots).exec events) ∧
    (StoreError.notFound key).NotFound = some true ∧
    ((NewStreamingStore roots).exec events).Has key
      = ((false, none), (NewStreamingStore roots).exec events) := by
  have hkeep := StreamingStore.exec_keeps events (NewStreamingStore roots) key rfl hev
  have hlook : (NewStreamingStore roots).lookup key = none := rfl
  rw [hlook] at hkeep
  refine ⟨?_, ?_, rfl, ?_⟩
  · simp only [StreamingStore.Get, hkeep.1, hkeep.2]
    rfl
  · simp only [StreamingStore.GetStream, hkeep.1, hkeep.2]
    rfl
  · simp only [StreamingStore.Has, hkeep.1, hkeep.2]
    rfl

/-- After the sample history, which puts two blocks under another key, the
key `unsetCid` is still absent. -/
theorem StreamingStore.unset_key_reads_witness :
    ((NewStreamingStore [sampleCid]).exec sampleEvents).Get unsetCid
      = ((none, some (.notFound unsetCid)), (NewStreamingStore [sampleCid]).exec sampleEvents) ∧
    ((NewStreamingStore [sampleCid]).exec sampleEvents).GetStream unsetCid
      = ((none, some (.notFound unsetCid)), (NewStreamingStore [sampleCid]).exec sampleEvents) ∧
    (StoreError.notFound unsetCid).NotFound = some true ∧
    ((NewStreamingStore [sampleCid]).exec sampleEvents).Has unsetCid
      = ((false, none), (NewStreamingStore [sampleCid]).exec sampleEvents) :=
  StreamingStore.unset_key_reads [sampleCid] sampleEvents unsetCid (by decide)

theorem StreamingStore.Close_closed (ss : StreamingStore) : ss.Close.2.closed = true := by
  unfold StreamingStore.Close
  by_cases h : ss.closed = true
  · rw [if_pos h]
    exact h
  · rw [if_neg h]

theorem StreamingStore.call_closed (ss : StreamingStore) (c : Call)
    (hclosed : ss.closed = true) (hc : c ≠ .Close) :
    ss.call c = (closedOutcome c, ss.report .closed) := by
  cases c with
  | Close => exact absurd rfl hc
  | Put key data => simp [StreamingStore.call, StreamingStore.Put, hclosed, closedOutcome]
  | Get key => simp [StreamingStore.call, StreamingStore.Get, hclosed, closedOutcome]
  | Has key => simp [StreamingStore.call, StreamingStore.Has, hclosed, closedOutcome]
  | GetStream key =>
    simp [StreamingStore.call, StreamingStore.GetStream, hclosed, closedOutcome]

theorem StreamingStore.calls_closed (calls : List Call) (ss : StreamingStore)
    (hclosed : ss.closed = true) (hcalls : ∀ c ∈ calls, c ≠ .Close) :
    (ss.calls calls).1 = calls.map closedOutcome ∧
    (ss.calls calls).2.errorCb = ss.errorCb ++ List.replicate calls.length .closed ∧
    (ss.calls calls).2.closed = true := by
  induction calls generalizing ss with
  | nil => simp [StreamingStore.calls, hclosed]
  | cons c rest ih =>
    have hc := StreamingStore.call_closed ss c hclosed (hcalls c (List.mem_cons_self _ _))
    have hrest := ih (ss.report .closed) hclosed
      (fun c' hc' => hcalls c' (List.mem_cons_of_mem _ hc'))
    simp only [StreamingStore.calls, hc, List.map_cons, List.length_cons]
    refine ⟨by rw [hrest.1], ?_, hrest.2.2⟩
    rw [hrest.2.1]
    simp [StreamingStore.report, List.replicate_succ]

/-- C5: after `Close()` has returned, whatever the store held, every
sequence of `Put`, `Get`, `Has` and `GetStream` calls, on any keys, fails
call by call with the Closed condition and a nil or false value; every
failing call delivers that same error once to the error callback, so the
`n` calls add exactly `n` entries, all of them the Closed condition, whose
text is "streaming store closed". -/
theorem StreamingStore.calls_after_Close (ss : StreamingStore) (calls : List Call)
    (hcalls : ∀ c ∈ calls, c ≠ .Close) :
    (ss.Close.2.calls calls).1 = calls.map closedOutcome ∧
    (ss.Close.2.calls calls).2.errorCb
      = ss.Close.2.errorCb ++ List.replicate calls.length .closed ∧
    (ss.Close.2.calls calls).2.errorCb.length = ss.Close.2.errorCb.length + calls.length ∧
    StoreError.closed.Error = "streaming store closed" := by
  have h := StreamingStore.calls_closed calls ss.Close.2 (StreamingStore.Close_closed ss) hcalls
  refine ⟨h.1, h.2.1, ?_, rfl⟩
  rw [h.2.1, List.length_append, List.length_replicate]

/-- The seven calls the test makes after `Close` raise the callback count
from zero to seven. -/
theorem StreamingStore.calls_after_Close_witness :
    ((NewStreamingStore [sampleCid]).exec sampleEvents).Close.2.errorCb.length = 0 ∧
    callsAfterClose.length = 7 ∧
    ((((NewStreamingStore [sampleCid]).exec sampleEvents).Close.2.calls callsAfterClose).1
        = callsAfterClose.map closedOutcome ∧
      (((NewStreamingStore [sampleCid]).exec sampleEvents).Close.2.calls callsAfterClose).2.errorCb
        = ((NewStreamingStore [sampleCid]).exec sampleEvents).Close.2.errorCb
            ++ List.replicate callsAfterClose.length .closed ∧
      (((NewStreamingStore [sampleCid]).exec sampleEvents).Close.2.calls
          callsAfterClose).2.errorCb.length
        = ((NewStreamingStore [sampleCid]).exec sampleEvents).Close.2.errorCb.length
            + callsAfterClose.length ∧
      StoreError.closed.Error = "streaming store closed") :=
  ⟨by decide, by decide,
    StreamingStore.calls_after_Close ((NewStreamingStore [sampleCid]).exec sampleEvents)
      callsAfterClose (by decide)⟩

theorem archiveRecords_append_one (roots : List Cid) (written : List CapturedBlock)
    (b : CapturedBlock) :
    archiveRecords roots (written ++ [b])
      = archiveRecords roots written
          ++ (if (!written.isEmpty) = true then [] else [.header roots archiveVersion])
          ++ [.block b] := by
  cases written with
  | nil => rfl
  | cons w ws => simp [archiveRecords]

theorem StreamingStore.writeNext_inv (roots : List Cid) (puts : List CapturedBlock)
    (ss : StreamingStore) (h : ss.archiveInv roots puts) :
    ss.writeNext.archiveInv roots puts ∧ ss.writeNext.queue = ss.queue.tail := by
  obtain ⟨hopen, hroots, written, hputs, hsink, hacq⟩ := h
  cases hq : ss.queue with
  | nil =>
    have hsame : ss.writeNext = ss := by simp [StreamingStore.writeNext, hq]
    rw [hsame]
    exact ⟨⟨hopen, hroots, written, hputs, hsink, hacq⟩, by rw [hq]; rfl⟩
  | cons b rest =>
    have hstep : ss.writeNext = { ss with
        sink := ss.sink ++ (if ss.sinkAcquired then [] else [.header ss.roots archiveVersion])
                  ++ [.block b],
        sinkAcquired := true,
        queue := rest } := by
      simp [StreamingStore.writeNext, hq]
    rw [hstep]
    refine ⟨⟨hopen, hroots, written ++ [b], ?_, ?_, ?_⟩, rfl⟩
    · rw [hputs, hq]
      simp
    · change ss.sink ++ (if ss.sinkAcquired then [] else [.header ss.roots archiveVersion])
          ++ [.block b] = _
      rw [archiveRecords_append_one, hsink, hacq, hroots]
    · simp

theorem StreamingStore.drain_inv (roots : List Cid) (puts : List CapturedBlock) (n : Nat)
    (ss : StreamingStore) (h : ss.archiveInv roots puts) (hn : ss.queue.length = n) :
    (ss.drain n).sink = archiveRecords roots puts := by
  induction n generalizing ss with
  | zero =>
    obtain ⟨_, _, written, hputs, hsink, _⟩ := h
    have hq : ss.queue = [] := List.length_eq_zero.mp hn
    rw [hq, List.append_nil] at hputs
    rw [hputs]
    exact hsink
  | succ m ih =>
    have hw := StreamingStore.writeNext_inv roots puts ss h
    have hlen : ss.writeNext.queue.length = m := by
      rw [hw.2, List.length_tail, hn]
      rfl
    exact ih ss.writeNext hw.1 hlen

theorem putsOf_cons (e : Event) (rest : List Event) :
    putsOf (e :: rest) = putsOf [e] ++ putsOf rest := by
  cases e with
  | writer => rfl
  | call c => cases c <;> rfl

theorem StreamingStore.step_inv (roots : List Cid) (puts : List CapturedBlock)
    (ss : StreamingStore) (e : Event) (h : ss.archiveInv roots puts)
    (hclose : e.isClose = false) :
    (ss.step e).archiveInv roots (puts ++ putsOf [e]) := by
  have hopen : ss.closed = false := h.1
  cases e with
  | writer =>
    have hw := (StreamingStore.writeNext_inv roots puts ss h).1
    simpa [StreamingStore.step, putsOf] using hw
  | call c =>
    cases c with
    | Close => cases hclose
    | Get k =>
      simpa [StreamingStore.step, StreamingStore.call, StreamingStore.Get_open ss k hopen,
        putsOf] using h
    | GetStream k =>
      simpa [StreamingStore.step, StreamingStore.call, StreamingStore.GetStream_open ss k hopen,
        putsOf] using h
    | Has k =>
      simpa [StreamingStore.step, StreamingStore.call, StreamingStore.Has_open ss k hopen,
        putsOf] using h
    | Put k data =>
      obtain ⟨_, hroots, written, hputs, hsink, hacq⟩ := h
      simp only [StreamingStore.step, StreamingStore.call,
        StreamingStore.Put_open ss k data hopen, putsOf]
      exact ⟨hopen, hroots, written, by rw [hputs, List.append_assoc], hsink, hacq⟩

theorem StreamingStore.exec_inv (roots : List Cid) (events : List Event)
    (puts : List CapturedBlock) (ss : StreamingStore) (h : ss.archiveInv roots puts)
    (hev : ∀ e ∈ events, e.isClose = false) :
    (ss.exec events).archiveInv roots (puts ++ putsOf events) := by
  induction events generalizing ss puts with
  | nil => simpa [StreamingStore.exec, putsOf] using h
  | cons e rest ih =>
    have hstep := StreamingStore.step_inv roots puts ss e h (hev e (List.mem_cons_self _ _))
    have hrest := ih (puts ++ putsOf [e]) (ss.step e) hstep
      (fun e' he' => hev e' (List.mem_cons_of_mem _ he'))
    rw [putsOf_cons, ← List.append_assoc]
    exact hrest

theorem readBlocks_blocks (blocks : List CapturedBlock) :
    readBlocks (blocks.map .block) = some blocks := by
  induction blocks with
  | nil => rfl
  | cons b rest ih => simp [readBlocks, ih]

/-- What `Close` leaves in the sink after any history of an open store: the
archive records of the blocks put, in the order of their puts. -/
theorem StreamingStore.Close_sink (roots : List Cid) (events : List Event)
    (hev : ∀ e ∈ events, e.isClose = false) :
    ((NewStreamingStore roots).exec events).Close.1 = none ∧
    ((NewStreamingStore roots).exec events).Close.2.sink
      = archiveRecords roots (putsOf events) := by
  have hnew : (NewStreamingStore roots).archiveInv roots [] :=
    ⟨rfl, rfl, [], rfl, rfl, rfl⟩
  have hinv := StreamingStore.exec_inv roots events [] (NewStreamingStore roots) hnew hev
  rw [List.nil_append] at hinv
  have hopen : ((NewStreamingStore roots).exec events).closed = false := hinv.1
  have hdrain := StreamingStore.drain_inv roots (putsOf events) _ _ hinv rfl
  unfold StreamingStore.Close
  rw [if_neg (by simp [hopen])]
  exact ⟨rfl, hdrain⟩

/-- C6 (as stated, refuted): a store that is closed after an empty sequence
of puts has written nothing to its sink, whose contents therefore do not
decode as an archive (there is no header to read). -/
theorem StreamingStore.Close_without_Put_writes_nothing :
    (NewStreamingStore [sampleCid]).Close.1 = none ∧
    (NewStreamingStore [sampleCid]).Close.2.sink = [] ∧
    decodeArchive (NewStreamingStore [sampleCid]).Close.2.sink = none := by
  decide

/-- C6 (amended): for every store constructed with roots R and every
non-empty sequence of puts, followed by `Close()`, whatever `Get`, `Has` and
`GetStream` calls and writer steps happen in between, `Close` returns no
error and the sink holds a version-1 archive: the header with roots R, then
exactly the blocks put, in the order of their puts, none reordered,
duplicated or dropped; and it decodes as such. -/
theorem StreamingStore.Close_writes_archive (roots : List Cid) (events : List Event)
    (hev : ∀ e ∈ events, e.isClose = false) (hputs : putsOf events ≠ []) :
    ((NewStreamingStore roots).exec events).Close.1 = none ∧
    ((NewStreamingStore roots).exec events).Close.2.sink
      = .header roots 1 :: (putsOf events).map .block ∧
    decodeArchive ((NewStreamingStore roots).exec events).Close.2.sink
      = some (1, roots, putsOf events) := by
  have h := StreamingStore.Close_sink roots events hev
  have hrec : archiveRecords roots (putsOf events)
      = .header roots 1 :: (putsOf events).map .block := by
    cases hp : putsOf events with
    | nil => exact absurd hp hputs
    | cons b rest => rfl
  rw [h.2, hrec]
  refine ⟨h.1, rfl, ?_⟩
  simp [decodeArchive, NewBlockReader, archiveVersion, readBlocks_blocks]

/-- The sample history puts two blocks; after `Close` the sink holds the
header and the two blocks in the order of their puts. -/
theorem StreamingStore.Close_writes_archive_witness :
    putsOf sampleEvents = [⟨otherCid, [1, 2]⟩, ⟨otherCid, [3]⟩] ∧
    ((NewStreamingStore [sampleCid]).exec sampleEvents).Close.1 = none ∧
    ((NewStreamingStore [sampleCid]).exec sampleEvents).Close.2.sink
      = .header [sampleCid] 1 :: (putsOf sampleEvents).map .block ∧
    decodeArchive ((NewStreamingStore [sampleCid]).exec sampleEvents).Close.2.sink
      = some (1, [sampleCid], putsOf sampleEvents) :=
  ⟨by decide, StreamingStore.Close_writes_archive [sampleCid] sampleEvents (by decide)
    (by decide)⟩

/-- The model passes `TestStreamingStoreWritesCARv1` in its case "read
before, during and after close": every call returns what the test requires,
the error callback has been called seven times, each time with the Closed
condition, and the sink reads back as the header and the two blocks. -/
theorem StreamingStore.passes_test :
    ((NewStreamingStore [sampleCid]).calls testCalls).1
      = [.Has false none, .Get none (some (.notFound unsetCid)),
         .GetStream none (some (.notFound unsetCid)),
         .Put none,
         .Get (some [1, 2]) none, .GetStream (some [1, 2]) none,
         .Has false none, .Get none (some (.notFound unsetCid)),
         .GetStream none (some (.notFound unsetCid)),
         .Put none,
         .Get (some [3]) none, .GetStream (some [3]) none,
         .Close none,
         .Put (some .closed), .Has false (some .closed), .Get none (some .closed),
         .GetStream none (some .closed),
         .Has false (some .closed), .Get none (some .closed), .GetStream none (some .closed)] ∧
    ((NewStreamingStore [sampleCid]).calls testCalls).2.errorCb = List.replicate 7 .closed ∧
    (((NewStreamingStore [sampleCid]).calls testCalls).2.Close).2
      = ((NewStreamingStore [sampleCid]).calls testCalls).2 ∧
    ((NewStreamingStore [sampleCid]).calls testCalls).2.sink
      = [.header [sampleCid] 1, .block ⟨sampleCid, [1, 2]⟩, .block ⟨otherCid, [3]⟩] := by
  decide

/-- The sink the test leaves reads back as the test requires: the reader
reports the root and version 1, and `Next` returns the two blocks in the
order of their puts, then the end of the archive. -/
theorem StreamingStore.test_sink_reads_back :
    NewBlockReader ((NewStreamingStore [sampleCid]).calls testCalls).2.sink
      = .ok ⟨1, [sampleCid], [.block ⟨sampleCid, [1, 2]⟩, .block ⟨otherCid, [3]⟩]⟩ ∧
    BlockReader.Next ⟨1, [sampleCid], [.block ⟨sampleCid, [1, 2]⟩, .block ⟨otherCid, [3]⟩]⟩
      = .ok (⟨sampleCid, [1, 2]⟩, ⟨1, [sampleCid], [.block ⟨otherCid, [3]⟩]⟩) ∧
    BlockReader.Next ⟨1, [sampleCid], [.block ⟨otherCid, [3]⟩]⟩
      = .ok (⟨otherCid, [3]⟩, ⟨1, [sampleCid], []⟩) ∧
    BlockReader.Next ⟨1, [sampleCid], []⟩ = .error "EOF" :=
  ⟨rfl, rfl, rfl, rfl⟩

/-! ## Verified properties of the incremental stream on well-formed data -/

theorem itemOfLine_err (env : Env) (c : Cid) (line : Bytes) (x : FindCandidatesResult)
    (h : itemOfLine env c line = some x) : x.Err = none ∧ x.Candidate.RootCid = c := by
  unfold itemOfLine at h
  split at h
  · cases h
  · split at h
    · cases h
    · split at h
      · cases h
      · cases h
        exact ⟨rfl, rfl⟩

theorem decodeWorker_normal (env : Env) (ctx : Context) (c : Cid) (scanErr : Option Error)
    (lines : List Bytes) (n : Nat) (h : normalEndOfData env ctx scanErr n lines) :
    decodeWorker env ctx c scanErr n lines = lines.filterMap (itemOfLine env c) := by
  induction lines generalizing n with
  | nil =>
    obtain ⟨h1, _, h3⟩ := h
    have hpoll : ctx.poll n = none := by simpa using h1 0 (Nat.le_refl _)
    subst h3
    simp [decodeWorker, hpoll]
  | cons line rest ih =>
    have hpoll : ctx.poll n = none := by simpa using h.1 0 (Nat.zero_le _)
    have hwf : line ≠ [] → lineWellFormed env line = true :=
      h.2.1 line (List.mem_cons_self _ _)
    have hrest := ih (n + 1)
      ((normalEndOfData_cons env ctx scanErr n line rest hpoll hwf).mp h)
    by_cases hempty : line.length = 0
    · have hnil : line = [] := List.length_eq_zero.mp hempty
      simp only [decodeWorker, hpoll, if_pos hempty, hrest]
      simp [itemOfLine, hnil]
    · have hne : line ≠ [] := fun h0 => hempty (by rw [h0]; rfl)
      cases hjson : env.jsonUnmarshal line with
      | error err =>
        have := hwf hne
        simp [lineWellFormed, hjson] at this
      | ok pr =>
        cases hmd : decodeMetadata env pr with
        | error err =>
          simp only [decodeWorker, hpoll, if_neg hempty, hjson, hmd, hrest]
          simp [itemOfLine, hne, hjson, hmd]
        | ok md =>
          simp only [decodeWorker, hpoll, if_neg hempty, hjson, hmd, hrest]
          simp [itemOfLine, hne, hjson, hmd]

/-- C12: for every sequence of response lines in which each non-empty line
is well-formed JSON, with no cancellation seen and no read error, the items
`decodeProviderResultStream` delivers are exactly, in line order, one
error-free item per non-empty line whose metadata decodes, carrying the
requested cid, that line's provider and the decoded metadata; empty lines
and lines whose metadata is empty or undecodable give no item and do not end
the stream, the lines after them being delivered all the same. -/
theorem decodeProviderResultStream_well_formed (env : Env) (idxf : IndexerCandidateFinder)
    (ctx : Context) (c : Cid) (body : ReadCloser)
    (h : normalEndOfData env ctx body.scanErr 0 body.lines) :
    ∃ ch : Chan, decodeProviderResultStream env idxf ctx c body = (some ch, none) ∧
      ch.items = body.lines.filterMap (itemOfLine env c) ∧
      ∀ x ∈ ch.items, x.Err = none ∧ x.Candidate.RootCid = c := by
  refine ⟨{ items := decodeWorker env ctx c body.scanErr 0 body.lines,
            buffer := idxf.asyncResultsChanBuffer }, rfl, ?_, ?_⟩
  · exact decodeWorker_normal env ctx c body.scanErr body.lines 0 h
  · intro x hx
    change x ∈ decodeWorker env ctx c body.scanErr 0 body.lines at hx
    rw [decodeWorker_normal env ctx c body.scanErr body.lines 0 h] at hx
    obtain ⟨line, _, hline⟩ := List.mem_filterMap.mp hx
    exact itemOfLine_err env c line x hline

/-- Of the five sample lines only the first and the last yield an item; the
empty line, the line with undecodable metadata and the line without metadata
are skipped without ending the stream. -/
theorem decodeProviderResultStream_well_formed_witness :
    wellFormedStreamBody.lines.filterMap (itemOfLine sampleEnv sampleCid)
      = [⟨⟨providerA, sampleCid, ⟨[144, 18]⟩⟩, none⟩, ⟨⟨providerA, sampleCid, ⟨[7]⟩⟩, none⟩] ∧
    ∃ ch : Chan, decodeProviderResultStream sampleEnv (sampleFinder 200 wellFormedStreamBody)
        Context.background sampleCid wellFormedStreamBody = (some ch, none) ∧
      ch.items = wellFormedStreamBody.lines.filterMap (itemOfLine sampleEnv sampleCid) ∧
      ∀ x ∈ ch.items, x.Err = none ∧ x.Candidate.RootCid = sampleCid :=
  ⟨by decide,
    decodeProviderResultStream_well_formed sampleEnv (sampleFinder 200 wellFormedStreamBody)
      Context.background sampleCid wellFormedStreamBody
      ⟨fun _ _ => rfl, by decide, rfl⟩⟩

/-! ## Verified properties of the gateway handler -/

theorem splitOn_head_takeWhile (sep : Char) (l : List Char) :
    ∃ rest, l.splitOn sep = l.takeWhile (· ≠ sep) :: rest := by
  induction l with
  | nil => exact ⟨[], rfl⟩
  | cons x xs ih =>
    obtain ⟨rest, hrest⟩ := ih
    unfold List.splitOn at hrest ⊢
    rw [List.splitOnP_cons]
    by_cases hx : x = sep
    · subst hx
      simp
    · rw [hrest]
      simp [hx, List.modifyHead]

/-- The handler's test of an Accept element, on the first part of its split
at `;`, is the test of its text before its first `;`. -/
theorem acceptTypeMatches_eq (element : String) :
    acceptTypeMatches element = validAcceptElement element := by
  obtain ⟨rest, hrest⟩ := splitOn_head_takeWhile ';' element.data
  simp [acceptTypeMatches, validAcceptElement, stringsSplit, hrest, Bool.or_assoc,
    beq_eq_decide]
  congr

theorem ipfsHandler_get (cidParse : String → Except Error Cid) (req : IncomingRequest)
    (hm : req.Method = "GET") (hlen : 2 ≤ (pathSegments req).length) :
    (passesValidation req = true →
      ipfsHandler cidParse req = parseCidParam cidParse (pathSegments req)) ∧
    (passesValidation req = false →
      ∃ message, ipfsHandler cidParse req = .respond 400 [] message) := by
  have hfun : acceptTypeMatches = validAcceptElement := funext acceptTypeMatches_eq
  have hlen2 : ¬ ((stringsSplit req.Path '/').drop 1).length < 2 := by
    simp only [pathSegments] at hlen
    omega
  simp only [ipfsHandler, hm, ne_eq, not_true_eq_false, if_false, hlen2, hfun,
    passesValidation, acceptCondition, formatCondition, presenceCondition,
    filenameCondition, hasValidAcceptElement, pathSegments, StatusBadRequest]
  generalize (stringsSplit req.Accept ',').any validAcceptElement = va
  generalize req.Query.Has "format" = hf
  generalize req.Query.Has "filename" = hn
  generalize filepathExt (req.Query.Get "filename") = ext
  generalize req.Query.Get "format" = fmt
  by_cases hacc : req.Accept = "" <;> by_cases hfmt : fmt = "car" <;>
    by_cases hext : ext = ".car" <;> cases va <;> cases hf <;> cases hn <;>
    simp [hacc, hfmt, hext] <;> split_ifs <;> exact ⟨_, rfl⟩

theorem parseCidParam_cases (cidParse : String → Except Error Cid) (urlPath : List String) :
    (∀ err, cidParse (urlPath.getD 1 "") = .error err →
      parseCidParam cidParse urlPath = .respond 500 [] "Failed to parse cid path parameter") ∧
    (∀ rootCid, cidParse (urlPath.getD 1 "") = .ok rootCid →
      parseCidParam cidParse urlPath = .fetch rootCid) := by
  constructor
  · intro err h
    simp only [parseCidParam, h, StatusInternalServerError]
  · intro rootCid h
    simp only [parseCidParam, h]

/-- C13: the request validation of `ipfsHandler` is a fixed-priority
decision. A method other than GET yields 405 with the header `Allow: GET`;
otherwise a path with fewer than two segments after the leading `/` yields
404; otherwise the request reaches the parsing of the cid exactly when (a)
the Accept header is empty or one of its comma-separated elements has, before
its first `;` and untrimmed, exactly the text `*/*`, `application/*` or
`application/vnd.ipld.car`, (b) the format parameter is absent or equals
`car`, (c) a valid Accept element or a format parameter is present, and (d)
the filename parameter is absent or has the extension `.car`; every other
GET request yields 400; and a request that passes yields 500 when its cid
segment fails to parse, and goes on to the retrieval of the cid when it
parses. -/
theorem ipfsHandler_validation (cidParse : String → Except Error Cid) (req : IncomingRequest) :
    (req.Method ≠ "GET" →
      ipfsHandler cidParse req = .respond 405 [("Allow", "GET")] "") ∧
    (req.Method = "GET" → (pathSegments req).length < 2 →
      ipfsHandler cidParse req = .respond 404 [] "") ∧
    (req.Method = "GET" → 2 ≤ (pathSegments req).length →
      (ipfsHandler cidParse req = parseCidParam cidParse (pathSegments req)
        ↔ passesValidation req = true) ∧
      (passesValidation req = false →
        ∃ message, ipfsHandler cidParse req = .respond 400 [] message) ∧
      (passesValidation req = true →
        ∀ err, cidParse ((pathSegments req).getD 1 "") = .error err →
          ipfsHandler cidParse req = .respond 500 [] "Failed to parse cid path parameter") ∧
      (passesValidation req = true →
        ∀ rootCid, cidParse ((pathSegments req).getD 1 "") = .ok rootCid →
          ipfsHandler cidParse req = .fetch rootCid)) := by
  refine ⟨?_, ?_, ?_⟩
  · intro hm
    simp only [ipfsHandler, hm, ne_eq, not_false_eq_true, if_true, StatusMethodNotAllowed]
  · intro hm hlen
    simp only [pathSegments] at hlen
    simp only [ipfsHandler, hm, ne_eq, not_true_eq_false, if_false, hlen, if_true,
      StatusNotFound]
  · intro hm hlen
    have hget := ipfsHandler_get cidParse req hm hlen
    have hparse := parseCidParam_cases cidParse (pathSegments req)
    refine ⟨⟨fun heq => ?_, hget.1⟩, hget.2, ?_, ?_⟩
    · cases hpass : passesValidation req with
      | true => rfl
      | false =>
        obtain ⟨message, hmsg⟩ := hget.2 hpass
        rw [hmsg] at heq
        cases hcid : cidParse ((pathSegments req).getD 1 "") with
        | error err =>
          rw [hparse.1 err hcid] at heq
          simp at heq
        | ok rootCid =>
          rw [hparse.2 rootCid hcid] at heq
          cases heq
    · intro hpass err hcid
      rw [hget.1 hpass]
      exact hparse.1 err hcid
    · intro hpass rootCid hcid
      rw [hget.1 hpass]
      exact hparse.2 rootCid hcid

/-- Sample requests through the decision: a POST yields 405, a path without
a cid segment 404, a valid Accept element with parameters reaches the cid,
an element with a leading blank yields 400, a format other than `car` yields
400, a filename without the `.car` extension yields 400, and an unparsable
cid yields 500. -/
theorem ipfsHandler_validation_witness :
    ipfsHandler sampleCidParse (sampleIncoming "POST" "/ipfs/bafkqaaa" "*/*" [])
      = .respond 405 [("Allow", "GET")] "" ∧
    ipfsHandler sampleCidParse (sampleIncoming "GET" "/ipfs" "*/*" []) = .respond 404 [] "" ∧
    ipfsHandler sampleCidParse
      (sampleIncoming "GET" "/ipfs/bafkqaaa" "text/html,application/vnd.ipld.car;q=1" [])
      = .fetch sampleCid ∧
    ipfsHandler sampleCidParse (sampleIncoming "GET" "/ipfs/bafkqaaa" "text/html, */*" [])
      = .respond 400 [] "No acceptable content type" ∧
    ipfsHandler sampleCidParse
      (sampleIncoming "GET" "/ipfs/bafkqaaa" "" [("format", ["tar"])])
      = .respond 400 [] "Requested non-supported format tar" ∧
    ipfsHandler sampleCidParse
      (sampleIncoming "GET" "/ipfs/bafkqaaa" "" [("format", ["car"]), ("filename", ["a.tar"])])
      = .respond 400 [] "Filename uses non-supported extension .tar" ∧
    ipfsHandler sampleCidParse (sampleIncoming "GET" "/ipfs/xyz" "" [("format", ["car"])])
      = .respond 500 [] "Failed to parse cid path parameter" :=
  ⟨(ipfsHandler_validation sampleCidParse
      (sampleIncoming "POST" "/ipfs/bafkqaaa" "*/*" [])).1 (by decide),
   (ipfsHandler_validation sampleCidParse (sampleIncoming "GET" "/ipfs" "*/*" [])).2.1
      rfl (by decide),
   ((ipfsHandler_validation sampleCidParse
      (sampleIncoming "GET" "/ipfs/bafkqaaa" "text/html,application/vnd.ipld.car;q=1" [])).2.2
      rfl (by decide)).2.2.2 (by decide) sampleCid rfl,
   by decide, by decide, by decide,
   ((ipfsHandler_validation sampleCidParse
      (sampleIncoming "GET" "/ipfs/xyz" "" [("format", ["car"])])).2.2
      rfl (by decide)).2.2.1 (by decide) "invalid cid" rfl⟩

/-! ## Verified properties of the lookup request -/

theorem b58Digits_eq (fuel n : Nat) (acc : List Nat) (h : n < 58 ^ fuel) :
    b58Digits fuel n acc = (Nat.digits 58 n).reverse ++ acc := by
  induction fuel generalizing n acc with
  | zero =>
    have hn : n = 0 := by simpa using h
    subst hn
    simp [b58Digits]
  | succ f ih =>
    unfold b58Digits
    by_cases hn : n = 0
    · subst hn
      simp
    · have hdiv : n / 58 < 58 ^ f := by
        rw [Nat.div_lt_iff_lt_mul (by decide)]
        rw [pow_succ] at h
        exact h
      rw [if_neg hn, ih _ _ hdiv, Nat.digits_def' (by decide) (Nat.pos_of_ne_zero hn)]
      simp

theorem bytesValue_foldl_lt (rest : Bytes) (acc : Nat) (hrest : ∀ b ∈ rest, b < 256) :
    rest.foldl (fun acc x => acc * 256 + x) acc < (acc + 1) * 256 ^ rest.length := by
  induction rest generalizing acc with
  | nil => simp
  | cons x xs ih =>
    have hx : x < 256 := hrest x (List.mem_cons_self _ _)
    have hxs := ih (acc * 256 + x) (fun b hb => hrest b (List.mem_cons_of_mem _ hb))
    rw [List.foldl_cons, List.length_cons, pow_succ]
    calc xs.foldl (fun acc x => acc * 256 + x) (acc * 256 + x)
        < (acc * 256 + x + 1) * 256 ^ xs.length := hxs
      _ ≤ ((acc + 1) * 256) * 256 ^ xs.length :=
          Nat.mul_le_mul_right _ (by omega)
      _ = (acc + 1) * (256 ^ xs.length * 256) := by ring

/-- The base58 text of a sequence of bytes is one `1` per leading zero byte
followed by the base-58 digits of the number the bytes denote, most
significant digit first: the bound on the number of digits is never
reached. -/
theorem B58String_digits (mh : Bytes) (hbytes : ∀ b ∈ mh, b < 256) :
    B58String mh
      = String.mk (List.replicate (mh.takeWhile (· = 0)).length '1'
          ++ (Nat.digits 58 (bytesValue mh)).reverse.map fun d => b58Alphabet.getD d '1') := by
  have hlt : bytesValue mh < 58 ^ (2 * mh.length) := by
    have h1 := bytesValue_foldl_lt mh 0 hbytes
    have h2 : (256 : Nat) ^ mh.length ≤ 58 ^ (2 * mh.length) := by
      rw [pow_mul]
      exact Nat.pow_le_pow_left (by decide) _
    unfold bytesValue
    omega
  rw [B58String, b58Digits_eq _ _ _ hlt, List.append_nil]

/-- The examples of the documentation of Go `path.Clean` and `path.Join`. -/
theorem pathClean_documented_examples :
    pathClean "a/c" = "a/c" ∧ pathClean "a//c" = "a/c" ∧ pathClean "a/c/." = "a/c" ∧
    pathClean "a/c/b/.." = "a/c" ∧ pathClean "/../a/c" = "/a/c" ∧
    pathClean "/../a/b/../././/c" = "/a/c" ∧ pathClean "" = "." ∧
    pathJoinElems ["a", "b", "c"] = "a/b/c" ∧ pathJoinElems ["a", "b/c"] = "a/b/c" ∧
    pathJoinElems ["a/b", "c"] = "a/b/c" ∧ pathJoinElems ["a/b", "../../../xyz"] = "../xyz" ∧
    pathJoinElems ["", ""] = "" ∧ pathJoinElems ["a", ""] = "a" ∧
    pathJoinElems ["", "a"] = "a" := by
  decide

/-- The base58 text of sample byte sequences, and the extension of sample
file names. -/
theorem B58String_filepathExt_examples :
    B58String sha256Multihash = "QmRN6wdp1S2A5EtjW9A3M1vKSBuQQGcgvuhoMUoEz4iiT5" ∧
    B58String [0, 0, 1] = "112" ∧ B58String [255, 255] = "LUv" ∧
    filepathExt "a.car" = ".car" ∧ filepathExt "a.tar.car" = ".car" ∧
    filepathExt "a.b/c" = "" ∧ filepathExt "car" = "" ∧ filepathExt "dir/.car" = ".car" := by
  decide

end Lassie
